import Mathlib

/-!
Shallow embedding of the fuzzy-date-ts library (src/fuzzyDate.ts and
src/util.ts) together with a model of the calendar oracle it delegates to
(the luxon dependency, restricted to the operations the library actually
uses: construct-and-validate, add one unit with carrying, subtract one
millisecond).  The oracle is modelled as proleptic Gregorian arithmetic
with unbounded years; luxon additionally enforces a year bound of roughly
±271821 years, which none of the verified claims touch.
-/

/-- A JavaScript number restricted to the values the library manipulates:
either an integer or the special value NaN.  The TypeScript interfaces type
every date field as `number`, so NaN is an admissible input; `null` is
excluded by the types and is treated by `isEmpty` exactly like `undefined`. -/
inductive JNum where
  | nan : JNum
  | int : Int → JNum
deriving DecidableEq, Repr

namespace JNum

/-- JavaScript addition of an integer constant: NaN propagates. -/
def add (a : JNum) (k : Int) : JNum :=
  match a with
  | .nan => .nan
  | .int n => .int (n + k)

/-- JavaScript comparison `a > k`: any comparison involving NaN is false. -/
def gt (a : JNum) (k : Int) : Bool :=
  match a with
  | .nan => false
  | .int n => decide (k < n)

end JNum

/-- Embedding of `isEmpty` from src/util.ts on an optional numeric field:
`undefined` (here `none`) and NaN count as empty. -/
def isEmpty : Option JNum → Bool
  | none => true
  | some .nan => true
  | some (.int _) => false

/-- Modelled calendar oracle (luxon): proleptic Gregorian leap-year rule. -/
def isLeapYear (y : Int) : Bool :=
  y % 4 == 0 && (y % 100 != 0 || y % 400 == 0)

/-- Modelled calendar oracle (luxon): number of days in a month. -/
def daysInMonth (y m : Int) : Int :=
  if m = 2 then (if isLeapYear y then 29 else 28)
  else if m = 4 ∨ m = 6 ∨ m = 9 ∨ m = 11 then 30
  else 31

/-- A fully specified date-time tuple, the carrier of the calendar oracle. -/
structure DateFields where
  year : Int
  month : Int
  day : Int
  hour : Int
  minute : Int
  second : Int
  millisecond : Int
deriving DecidableEq, Repr

/-- Modelled calendar oracle (luxon): validity of a fully specified tuple. -/
def validFields (f : DateFields) : Bool :=
  decide (1 ≤ f.month ∧ f.month ≤ 12 ∧
    1 ≤ f.day ∧ f.day ≤ daysInMonth f.year f.month ∧
    0 ≤ f.hour ∧ f.hour ≤ 23 ∧
    0 ≤ f.minute ∧ f.minute ≤ 59 ∧
    0 ≤ f.second ∧ f.second ≤ 59 ∧
    0 ≤ f.millisecond ∧ f.millisecond ≤ 999)

/-- Modelled calendar oracle (luxon): `DateTime.fromObject`.  Any NaN
component or calendar-invalid combination yields the invalid DateTime,
modelled as `none`. -/
def dtFromObject (y mo d h mi s ms : JNum) : Option DateFields :=
  match y, mo, d, h, mi, s, ms with
  | .int y, .int mo, .int d, .int h, .int mi, .int s, .int ms =>
      let f : DateFields := ⟨y, mo, d, h, mi, s, ms⟩
      if validFields f then some f else none
  | _, _, _, _, _, _, _ => none

/-- Modelled calendar oracle (luxon): add one day, carrying into month/year. -/
def addOneDay (f : DateFields) : DateFields :=
  if f.day < daysInMonth f.year f.month then { f with day := f.day + 1 }
  else if f.month < 12 then { f with month := f.month + 1, day := 1 }
  else { f with year := f.year + 1, month := 1, day := 1 }

/-- Modelled calendar oracle (luxon): add one hour, carrying into the day. -/
def addOneHour (f : DateFields) : DateFields :=
  if f.hour < 23 then { f with hour := f.hour + 1 }
  else addOneDay { f with hour := 0 }

/-- Modelled calendar oracle (luxon): add one minute, carrying upwards. -/
def addOneMinute (f : DateFields) : DateFields :=
  if f.minute < 59 then { f with minute := f.minute + 1 }
  else addOneHour { f with minute := 0 }

/-- Modelled calendar oracle (luxon): add one second, carrying upwards. -/
def addOneSecond (f : DateFields) : DateFields :=
  if f.second < 59 then { f with second := f.second + 1 }
  else addOneMinute { f with second := 0 }

/-- Modelled calendar oracle (luxon): subtract one millisecond, borrowing
through the units with calendar-correct month lengths. -/
def subOneMs (f : DateFields) : DateFields :=
  if 0 < f.millisecond then { f with millisecond := f.millisecond - 1 }
  else if 0 < f.second then { f with second := f.second - 1, millisecond := 999 }
  else if 0 < f.minute then
    { f with minute := f.minute - 1, second := 59, millisecond := 999 }
  else if 0 < f.hour then
    { f with hour := f.hour - 1, minute := 59, second := 59, millisecond := 999 }
  else if 1 < f.day then
    { f with day := f.day - 1, hour := 23, minute := 59, second := 59, millisecond := 999 }
  else if 1 < f.month then
    ⟨f.year, f.month - 1, daysInMonth f.year (f.month - 1), 23, 59, 59, 999⟩
  else
    ⟨f.year - 1, 12, 31, 23, 59, 59, 999⟩

/-- Lifting of an oracle operation to possibly-invalid DateTimes. -/
def dtMap (g : DateFields → DateFields) : Option DateFields → Option DateFields :=
  Option.map g

/-- Reading a component of a possibly-invalid DateTime: invalid reads as NaN. -/
def dtGet (g : DateFields → Int) : Option DateFields → JNum
  | none => .nan
  | some f => .int (g f)

/-- Embedding of the `FuzzyDateOptions` interface: `year` is required, every
finer field optional (`none` is TypeScript `undefined`). -/
structure FuzzyDateOptions where
  year : JNum
  month : Option JNum := none
  day : Option JNum := none
  hour : Option JNum := none
  minute : Option JNum := none
  second : Option JNum := none
  millisecond : Option JNum := none
deriving DecidableEq, Repr

/-- The options fields in the fixed hierarchy order used by the constructor;
the required `year` participates wrapped in `some`, exactly as the code
indexes `options` by every field name including `year`. -/
def optionFields (o : FuzzyDateOptions) : List (Option JNum) :=
  [some o.year, o.month, o.day, o.hour, o.minute, o.second, o.millisecond]

/-- Embedding of `FuzzyDate.isOptionsFilledInHierarchy`: find the first empty
field; every field from that index on must also be empty. -/
def isOptionsFilledInHierarchy (o : FuzzyDateOptions) : Bool :=
  match (optionFields o).findIdx? (fun f => isEmpty f) with
  | none => true
  | some i => ((optionFields o).drop i).all (fun f => isEmpty f)

/-- Embedding of `FuzzyDate.isOptionsOnCalendar`: nullish-coalesce the
undefined fields to their floor defaults (NaN survives the coalescing,
exactly as in the JavaScript code) and ask the oracle for validity. -/
def isOptionsOnCalendar (o : FuzzyDateOptions) : Bool :=
  (dtFromObject o.year (o.month.getD (.int 1)) (o.day.getD (.int 1))
    (o.hour.getD (.int 0)) (o.minute.getD (.int 0)) (o.second.getD (.int 0))
    (o.millisecond.getD (.int 0))).isSome

/-- The error taxonomy of the library, as tagged variants. -/
inductive FuzzyDateError where
  | hierarchyError : FuzzyDateError
  | calendarError : FuzzyDateError
  | deserializationError : String → FuzzyDateError
deriving DecidableEq, Repr

/-- Embedding of the immutable `FuzzyDate` value: the same fields as the
options record, stored verbatim by the constructor. -/
structure FuzzyDate where
  year : JNum
  month : Option JNum := none
  day : Option JNum := none
  hour : Option JNum := none
  minute : Option JNum := none
  second : Option JNum := none
  millisecond : Option JNum := none
deriving DecidableEq, Repr

/-- Embedding of the `FuzzyDate` constructor: hierarchy check first, then
calendar check, then the fields are stored unchanged. -/
def FuzzyDate.create (o : FuzzyDateOptions) : Except FuzzyDateError FuzzyDate :=
  if ¬ isOptionsFilledInHierarchy o then .error .hierarchyError
  else if ¬ isOptionsOnCalendar o then .error .calendarError
  else .ok ⟨o.year, o.month, o.day, o.hour, o.minute, o.second, o.millisecond⟩

/-- Embedding of `PreciseDateOptions`: a record of seven JavaScript numbers
(at runtime a component can be NaN when the oracle was handed garbage). -/
structure PreciseDateOptions where
  year : JNum
  month : JNum
  day : JNum
  hour : JNum
  minute : JNum
  second : JNum
  millisecond : JNum
deriving DecidableEq, Repr

/-- Embedding of `FuzzyDate.getEarliestPaddingOptions`: nullish-coalesce each
undefined field to its floor default. -/
def FuzzyDate.getEarliestPaddingOptions (fd : FuzzyDate) : PreciseDateOptions :=
  ⟨fd.year, fd.month.getD (.int 1), fd.day.getD (.int 1), fd.hour.getD (.int 0),
    fd.minute.getD (.int 0), fd.second.getD (.int 0), fd.millisecond.getD (.int 0)⟩

/-- The seven field names, the result type of `getPrecision`. -/
inductive FieldName where
  | year | month | day | hour | minute | second | millisecond
deriving DecidableEq, Repr

/-- Embedding of `FuzzyDate.getPrecision`: scan from millisecond up to year,
returning the first non-empty field. -/
def FuzzyDate.getPrecision (fd : FuzzyDate) : FieldName :=
  if ¬ isEmpty fd.millisecond then .millisecond
  else if ¬ isEmpty fd.second then .second
  else if ¬ isEmpty fd.minute then .minute
  else if ¬ isEmpty fd.hour then .hour
  else if ¬ isEmpty fd.day then .day
  else if ¬ isEmpty fd.month then .month
  else .year

/-- Embedding of `FuzzyDate.getLatestPaddingOptions`: branch on the coarsest
empty field, build the first instant of the next unit via the oracle's
`fromObject` plus unit-addition, subtract one millisecond, and read the
components back (undefined arguments to `fromObject` take luxon's defaults;
the `month + 1 > 12` arithmetic of the day-branch is JavaScript arithmetic,
where an undefined month would propagate as NaN). -/
def FuzzyDate.getLatestPaddingOptions (fd : FuzzyDate) : PreciseDateOptions :=
  let dt : Option DateFields :=
    if isEmpty fd.month then
      dtMap subOneMs (dtFromObject (JNum.add fd.year 1) (.int 1) (.int 1)
        (.int 0) (.int 0) (.int 0) (.int 0))
    else if isEmpty fd.day then
      let month := fd.month.getD .nan
      let nextMonth : JNum :=
        if JNum.gt (JNum.add month 1) 12 then .int 1 else JNum.add month 1
      let nextMonthYear : JNum :=
        if JNum.gt (JNum.add month 1) 12 then JNum.add fd.year 1 else fd.year
      dtMap subOneMs (dtFromObject nextMonthYear nextMonth (.int 1)
        (.int 0) (.int 0) (.int 0) (.int 0))
    else if isEmpty fd.hour then
      dtMap subOneMs (dtMap addOneDay (dtFromObject fd.year
        (fd.month.getD (.int 1)) (fd.day.getD (.int 1))
        (.int 0) (.int 0) (.int 0) (.int 0)))
    else if isEmpty fd.minute then
      dtMap subOneMs (dtMap addOneHour (dtFromObject fd.year
        (fd.month.getD (.int 1)) (fd.day.getD (.int 1)) (fd.hour.getD (.int 0))
        (.int 0) (.int 0) (.int 0)))
    else if isEmpty fd.second then
      dtMap subOneMs (dtMap addOneMinute (dtFromObject fd.year
        (fd.month.getD (.int 1)) (fd.day.getD (.int 1)) (fd.hour.getD (.int 0))
        (fd.minute.getD (.int 0)) (.int 0) (.int 0)))
    else if isEmpty fd.millisecond then
      dtMap subOneMs (dtMap addOneSecond (dtFromObject fd.year
        (fd.month.getD (.int 1)) (fd.day.getD (.int 1)) (fd.hour.getD (.int 0))
        (fd.minute.getD (.int 0)) (fd.second.getD (.int 0)) (.int 0)))
    else
      dtFromObject fd.year (fd.month.getD (.int 1)) (fd.day.getD (.int 1))
        (fd.hour.getD (.int 0)) (fd.minute.getD (.int 0))
        (fd.second.getD (.int 0)) (fd.millisecond.getD (.int 0))
  ⟨dtGet DateFields.year dt, dtGet DateFields.month dt, dtGet DateFields.day dt,
    dtGet DateFields.hour dt, dtGet DateFields.minute dt,
    dtGet DateFields.second dt, dtGet DateFields.millisecond dt⟩

/-- One decimal digit as a character. -/
def digitChar (d : Nat) : Char := Char.ofNat (48 + d)

/-- Big-endian decimal digit characters of a positive natural number, with
fuel to make the recursion structural. -/
def natCharsAux : Nat → Nat → List Char
  | 0, _ => []
  | fuel + 1, n =>
    if n = 0 then [] else natCharsAux fuel (n / 10) ++ [digitChar (n % 10)]

/-- Decimal rendering of a natural number, as JavaScript toString yields. -/
def natChars (n : Nat) : List Char := if n = 0 then ['0'] else natCharsAux n n

/-- Decimal rendering of an integer, as JavaScript Number.toString yields:
a leading sign character for negatives, then the digits of the magnitude. -/
def jsIntChars (n : Int) : List Char :=
  if n < 0 then '-' :: natChars n.natAbs else natChars n.toNat

/-- JavaScript toString of a stored field value, including the NaN case. -/
def jsNumChars : JNum → List Char
  | .nan => ['N', 'a', 'N']
  | .int n => jsIntChars n

/-- Embedding of String.prototype.padStart with a single pad character. -/
def padStart (k : Nat) (c : Char) (s : List Char) : List Char :=
  List.replicate (k - s.length) c ++ s

/-- Embedding of `FuzzyDate.toString`: emit the year padded to at least four
characters, then each defined finer field with its separator, nested exactly
as the source tests each field against `undefined`. -/
def FuzzyDate.toString (fd : FuzzyDate) : List Char :=
  padStart 4 '0' (jsNumChars fd.year) ++
  match fd.month with
  | none => []
  | some m => ('-' :: padStart 2 '0' (jsNumChars m)) ++
    match fd.day with
    | none => []
    | some d => ('-' :: padStart 2 '0' (jsNumChars d)) ++
      match fd.hour with
      | none => []
      | some h => ('T' :: padStart 2 '0' (jsNumChars h)) ++
        match fd.minute with
        | none => []
        | some mi => (':' :: padStart 2 '0' (jsNumChars mi)) ++
          match fd.second with
          | none => []
          | some sec => (':' :: padStart 2 '0' (jsNumChars sec)) ++
            match fd.millisecond with
            | none => []
            | some ms => '.' :: padStart 3 '0' (jsNumChars ms)

/-- Embedding of String.prototype.split with a one-character separator. -/
def splitCh (sep : Char) : List Char → List (List Char)
  | [] => [[]]
  | c :: cs =>
    if c = sep then [] :: splitCh sep cs
    else
      match splitCh sep cs with
      | [] => [[c]]
      | r :: rs => (c :: r) :: rs

/-- Decimal ASCII digit test. -/
def isDigitCh (c : Char) : Bool := decide ('0' ≤ c) && decide (c ≤ '9')

/-- Numeric value of a big-endian digit-character run. -/
def digitsVal (ds : List Char) : Nat :=
  ds.foldl (fun a c => 10 * a + (c.toNat - 48)) 0

/-- Embedding of JavaScript parseInt with radix 10 on the component strings
fromString produces: an optional leading minus sign, then the maximal leading
run of decimal digits; NaN when that run is empty.  (parseInt also skips
leading whitespace and accepts a plus sign, which no component here can
contain.) -/
def jsParseInt (s : List Char) : JNum :=
  match s with
  | [] => .nan
  | c :: rest =>
    if c = '-' then
      let ds := rest.takeWhile isDigitCh
      if ds.isEmpty then .nan else .int (-(digitsVal ds : Int))
    else
      let ds := (c :: rest).takeWhile isDigitCh
      if ds.isEmpty then .nan else .int (digitsVal ds)

/-- Exactly three digit characters, the millisecond body of the grammar. -/
def matchThreeDigits : List Char → Bool
  | [a, b, c] => isDigitCh a && isDigitCh b && isDigitCh c
  | _ => false

/-- Two digit characters followed by a continuation of the grammar. -/
def matchTwoDigitsThen (next : List Char → Bool) : List Char → Bool
  | a :: b :: rest => isDigitCh a && isDigitCh b && next rest
  | _ => false

/-- Tail of the fromString regular expression after the second: an optional
millisecond part introduced by a dot, then the anchor. -/
def matchMsPart (s : List Char) : Bool :=
  match s with
  | [] => true
  | c :: rest => c = '.' && matchThreeDigits rest

/-- Tail of the regular expression after the minute: optional second part. -/
def matchSecPart (s : List Char) : Bool :=
  match s with
  | [] => true
  | c :: rest => c = ':' && matchTwoDigitsThen matchMsPart rest

/-- Tail of the regular expression after the hour: optional minute part. -/
def matchMinPart (s : List Char) : Bool :=
  match s with
  | [] => true
  | c :: rest => c = ':' && matchTwoDigitsThen matchSecPart rest

/-- Tail of the regular expression after the day: optional time part. -/
def matchHourPart (s : List Char) : Bool :=
  match s with
  | [] => true
  | c :: rest => c = 'T' && matchTwoDigitsThen matchMinPart rest

/-- Tail of the regular expression after the month: optional day part. -/
def matchDayPart (s : List Char) : Bool :=
  match s with
  | [] => true
  | c :: rest => c = '-' && matchTwoDigitsThen matchHourPart rest

/-- Tail of the regular expression after the year: optional month part. -/
def matchMonthPart (s : List Char) : Bool :=
  match s with
  | [] => true
  | c :: rest => c = '-' && matchTwoDigitsThen matchDayPart rest

/-- Drop one leading minus sign, as the regular expression's optional sign. -/
def stripNeg (s : List Char) : List Char :=
  match s with
  | [] => s
  | c :: rest => if c = '-' then rest else s

/-- Embedding of the anchored regular expression fromString matches first.
The leading digit run is matched greedily; no continuation of the pattern
begins with a digit, so the greedy match is the only possible one. -/
def matchFDS (s : List Char) : Bool :=
  let body := stripNeg s
  !(body.takeWhile isDigitCh).isEmpty && matchMonthPart (body.dropWhile isDigitCh)

/-- Embedding of String.prototype.startsWith for a minus sign. -/
def startsWithNeg (s : List Char) : Bool :=
  match s with
  | [] => false
  | c :: _ => c = '-'

/-- Parse one component that is only present when the corresponding split
yielded enough parts (the source guards with a length test, equivalent to
the indexed element being present). -/
def parseOptComp : Option (List Char) → Except FuzzyDateError (Option JNum)
  | none => .ok none
  | some cs =>
    match jsParseInt cs with
    | .nan => .error (.deserializationError "Invalid format")
    | .int n => .ok (some (.int n))

/-- The second-and-millisecond block of fromString: split the third colon
component at the dot, parseInt the second with its isNaN check, and when a
dot part is present and non-empty parseInt it as the millisecond, then
delegate to the constructor. -/
def parseSecondBlock (y : Int) (mo d : Option JNum) (h : Int) (mi : Option JNum)
    (secChunk : List Char) : Except FuzzyDateError FuzzyDate :=
  let dotParts := splitCh '.' secChunk
  match jsParseInt (dotParts.headD []) with
  | .nan => .error (.deserializationError "Invalid format")
  | .int sec =>
    match dotParts[1]? with
    | some msStr =>
      if msStr.isEmpty then
        FuzzyDate.create ⟨.int y, mo, d, some (.int h), mi, some (.int sec), none⟩
      else
        match jsParseInt msStr with
        | .nan => .error (.deserializationError "Invalid format")
        | .int ms =>
          FuzzyDate.create ⟨.int y, mo, d, some (.int h), mi,
            some (.int sec), some (.int ms)⟩
    | none =>
      FuzzyDate.create ⟨.int y, mo, d, some (.int h), mi, some (.int sec), none⟩

/-- The time block of fromString: an absent or empty (falsy) time part
constructs from the date fields alone; otherwise split at colons, enforce at
most three components, parseInt the hour and the optional minute with their
isNaN checks, and hand the optional third component to the second block. -/
def parseTimeBlock (y : Int) (mo d : Option JNum)
    (timePart : Option (List Char)) : Except FuzzyDateError FuzzyDate :=
  match timePart with
  | none => FuzzyDate.create ⟨.int y, mo, d, none, none, none, none⟩
  | some tp =>
    if tp.isEmpty then FuzzyDate.create ⟨.int y, mo, d, none, none, none, none⟩
    else
      let timeParts := splitCh ':' tp
      if timeParts.length < 1 ∨ 3 < timeParts.length then
        .error (.deserializationError "Invalid format")
      else
        match jsParseInt (timeParts.headD []) with
        | .nan => .error (.deserializationError "Invalid format")
        | .int h =>
          match parseOptComp timeParts[1]? with
          | .error e => .error e
          | .ok mi =>
            match timeParts[2]? with
            | none => FuzzyDate.create ⟨.int y, mo, d, some (.int h), mi, none, none⟩
            | some secChunk => parseSecondBlock y mo d h mi secChunk

/-- Embedding of `FuzzyDate.fromString`: regular-expression gate, split into
date and time segments at T, sign-aware split of the date segment at
hyphens with at most three components, component-wise parseInt with isNaN
checks, then the time block and finally the validating constructor. -/
def FuzzyDate.fromString (s : List Char) : Except FuzzyDateError FuzzyDate :=
  if ¬ matchFDS s then .error (.deserializationError "Invalid format")
  else
    let tparts := splitCh 'T' s
    let datePart := tparts.headD []
    let timePart := tparts[1]?
    let hasNeg : Bool := startsWithNeg datePart
    let rawParts := splitCh '-' datePart
    let dateParts : List (List Char) :=
      if hasNeg then ('-' :: (rawParts[1]?.getD [])) :: rawParts.drop 2
      else rawParts
    if dateParts.length < 1 ∨ 3 < dateParts.length then
      .error (.deserializationError "Invalid format")
    else
      match jsParseInt (dateParts.headD []) with
      | .nan => .error (.deserializationError "Invalid format")
      | .int y =>
        match parseOptComp dateParts[1]? with
        | .error e => .error e
        | .ok mo =>
          match parseOptComp dateParts[2]? with
          | .error e => .error e
          | .ok d => parseTimeBlock y mo d timePart

/-- The seven duration unit names, the precision values of FuzzyDuration. -/
inductive DurationUnit where
  | years | months | days | hours | minutes | seconds | milliseconds
deriving DecidableEq, Repr

/-- Modelled from the spec: the constructor options of FuzzyDuration
(src/fuzzyDuration.ts is absent from src/, only its test suite is present);
per spec section 4.6 all seven unit fields are optional numbers. -/
structure FuzzyDurationOptions where
  years : Option JNum := none
  months : Option JNum := none
  days : Option JNum := none
  hours : Option JNum := none
  minutes : Option JNum := none
  seconds : Option JNum := none
  milliseconds : Option JNum := none
deriving DecidableEq, Repr

/-- Modelled from the spec: the immutable FuzzyDuration value, with every
unit stored as a plain integer and the derived precision. -/
structure FuzzyDuration where
  years : Int
  months : Int
  days : Int
  hours : Int
  minutes : Int
  seconds : Int
  milliseconds : Int
  precision : DurationUnit
deriving DecidableEq, Repr

/-- Modelled from the spec: an empty (undefined/null/NaN) unit input is
stored as 0, a specified one as its value. -/
def durField : Option JNum → Int
  | some (.int n) => n
  | _ => 0

/-- Modelled from the spec: the FuzzyDuration constructor never fails; each
missing unit defaults to 0 and the precision is the finest unit, checked
from milliseconds up to years, whose input was not empty, with years as the
default. -/
def FuzzyDuration.create (o : FuzzyDurationOptions) : FuzzyDuration where
  years := durField o.years
  months := durField o.months
  days := durField o.days
  hours := durField o.hours
  minutes := durField o.minutes
  seconds := durField o.seconds
  milliseconds := durField o.milliseconds
  precision :=
    if ¬ isEmpty o.milliseconds then .milliseconds
    else if ¬ isEmpty o.seconds then .seconds
    else if ¬ isEmpty o.minutes then .minutes
    else if ¬ isEmpty o.hours then .hours
    else if ¬ isEmpty o.days then .days
    else if ¬ isEmpty o.months then .months
    else .years

/-- The field of an options record at a hierarchy index, for the
specification-side statement of the hierarchy invariant. -/
def fieldAt (o : FuzzyDateOptions) (i : Nat) : Option JNum :=
  (optionFields o).getD i none

/-- Specification-side hierarchy invariant: the defined fields form a
contiguous prefix of the hierarchy order, i.e. whenever a field is defined
every coarser field is defined too. -/
def contiguousPrefix (o : FuzzyDateOptions) : Prop :=
  ∀ j, j < 7 → ∀ i, i ≤ j →
    isEmpty (fieldAt o j) = false → isEmpty (fieldAt o i) = false

instance (o : FuzzyDateOptions) : Decidable (contiguousPrefix o) := by
  unfold contiguousPrefix; infer_instance

/-- Specification-side precision: the name of the last field in hierarchy
order that is defined, read off by scanning from the top. -/
def finestDefined (fd : FuzzyDate) : FieldName :=
  if isEmpty fd.month then .year
  else if isEmpty fd.day then .month
  else if isEmpty fd.hour then .day
  else if isEmpty fd.minute then .hour
  else if isEmpty fd.second then .minute
  else if isEmpty fd.millisecond then .second
  else .millisecond

/-- Days in month lifted to JavaScript numbers, for the specification-side
description of latest padding. -/
def dimJ (y m : JNum) : JNum :=
  match y, m with
  | .int y, .int m => .int (daysInMonth y m)
  | _, _ => .nan

/-- Specification-side latest padding: each field below the defined prefix
is replaced by its maximum legal value, the day by the calendar-correct
length of the stored month. -/
def latestSpec (fd : FuzzyDate) : PreciseDateOptions :=
  match fd.month, fd.day, fd.hour, fd.minute, fd.second, fd.millisecond with
  | none, _, _, _, _, _ =>
    ⟨fd.year, .int 12, .int 31, .int 23, .int 59, .int 59, .int 999⟩
  | some mo, none, _, _, _, _ =>
    ⟨fd.year, mo, dimJ fd.year mo, .int 23, .int 59, .int 59, .int 999⟩
  | some mo, some d, none, _, _, _ =>
    ⟨fd.year, mo, d, .int 23, .int 59, .int 59, .int 999⟩
  | some mo, some d, some h, none, _, _ =>
    ⟨fd.year, mo, d, h, .int 59, .int 59, .int 999⟩
  | some mo, some d, some h, some mi, none, _ =>
    ⟨fd.year, mo, d, h, mi, .int 59, .int 999⟩
  | some mo, some d, some h, some mi, some sec, none =>
    ⟨fd.year, mo, d, h, mi, sec, .int 999⟩
  | some mo, some d, some h, some mi, some sec, some ms =>
    ⟨fd.year, mo, d, h, mi, sec, ms⟩

/-- Specification-side serialization of the grammar of section 4.5, written
by precision level: the year is the signed decimal string zero-padded to at
least four characters, each finer defined field follows with its separator,
two digits for month through second and three for the millisecond. -/
def specToString (fd : FuzzyDate) : List Char :=
  let yearStr := padStart 4 '0' (jsNumChars fd.year)
  let two := fun (j : JNum) => padStart 2 '0' (jsNumChars j)
  let three := fun (j : JNum) => padStart 3 '0' (jsNumChars j)
  match fd.month, fd.day, fd.hour, fd.minute, fd.second, fd.millisecond with
  | none, _, _, _, _, _ => yearStr
  | some mo, none, _, _, _, _ => yearStr ++ ['-'] ++ two mo
  | some mo, some d, none, _, _, _ => yearStr ++ ['-'] ++ two mo ++ ['-'] ++ two d
  | some mo, some d, some h, none, _, _ =>
    yearStr ++ ['-'] ++ two mo ++ ['-'] ++ two d ++ ['T'] ++ two h
  | some mo, some d, some h, some mi, none, _ =>
    yearStr ++ ['-'] ++ two mo ++ ['-'] ++ two d ++ ['T'] ++ two h ++ [':'] ++ two mi
  | some mo, some d, some h, some mi, some sec, none =>
    yearStr ++ ['-'] ++ two mo ++ ['-'] ++ two d ++ ['T'] ++ two h ++ [':'] ++
      two mi ++ [':'] ++ two sec
  | some mo, some d, some h, some mi, some sec, some ms =>
    yearStr ++ ['-'] ++ two mo ++ ['-'] ++ two d ++ ['T'] ++ two h ++ [':'] ++
      two mi ++ [':'] ++ two sec ++ ['.'] ++ three ms

theorem digitChar_toNat {d : Nat} (h : d < 10) : (digitChar d).toNat = 48 + d := by
  interval_cases d <;> rfl

theorem isDigitCh_digitChar {d : Nat} (h : d < 10) : isDigitCh (digitChar d) = true := by
  interval_cases d <;> decide

theorem isDigitCh_sep {c : Char} (h : isDigitCh c = true) :
    c ≠ '-' ∧ c ≠ 'T' ∧ c ≠ ':' ∧ c ≠ '.' := by
  simp only [isDigitCh, Bool.and_eq_true, decide_eq_true_eq] at h
  obtain ⟨h1, h2⟩ := h
  refine ⟨fun hc => ?_, fun hc => ?_, fun hc => ?_, fun hc => ?_⟩ <;> subst hc
  · exact absurd h1 (by decide)
  · exact absurd h2 (by decide)
  · exact absurd h2 (by decide)
  · exact absurd h1 (by decide)

theorem natCharsAux_eq :
    ∀ (fuel n : Nat), n ≤ fuel →
      natCharsAux fuel n = (Nat.digits 10 n).reverse.map digitChar := by
  intro fuel
  induction fuel with
  | zero =>
    intro n hn
    interval_cases n
    simp [natCharsAux]
  | succ fuel ih =>
    intro n hn
    by_cases h0 : n = 0
    · subst h0; simp [natCharsAux]
    · rw [natCharsAux, if_neg h0, ih (n / 10) (by omega),
        Nat.digits_def' (by norm_num : 1 < 10) (Nat.pos_of_ne_zero h0)]
      simp

theorem natChars_eq {n : Nat} (h : n ≠ 0) :
    natChars n = (Nat.digits 10 n).reverse.map digitChar := by
  rw [natChars, if_neg h, natCharsAux_eq n n le_rfl]

theorem digitsVal_append_singleton (a : List Char) (c : Char) :
    digitsVal (a ++ [c]) = 10 * digitsVal a + (c.toNat - 48) := by
  simp [digitsVal, List.foldl_append]

theorem digitsVal_digits (n : Nat) :
    digitsVal ((Nat.digits 10 n).reverse.map digitChar) = n := by
  induction n using Nat.strong_induction_on with
  | _ n ih =>
    rcases Nat.eq_zero_or_pos n with h0 | h0
    · subst h0; simp [digitsVal]
    · rw [Nat.digits_def' (by norm_num : 1 < 10) h0]
      simp only [List.reverse_cons, List.map_append, List.map_cons, List.map_nil]
      rw [digitsVal_append_singleton, ih (n / 10) (Nat.div_lt_self h0 (by norm_num)),
        digitChar_toNat (Nat.mod_lt n (by norm_num))]
      omega

theorem digitsVal_natChars (n : Nat) : digitsVal (natChars n) = n := by
  by_cases h0 : n = 0
  · subst h0; rfl
  · rw [natChars_eq h0]; exact digitsVal_digits n

theorem natChars_all_digits (n : Nat) : ∀ c ∈ natChars n, isDigitCh c = true := by
  by_cases h0 : n = 0
  · subst h0; intro c hc
    simp [natChars] at hc
    subst hc; decide
  · rw [natChars_eq h0]
    intro c hc
    simp only [List.mem_map, List.mem_reverse] at hc
    obtain ⟨d, hd, rfl⟩ := hc
    exact isDigitCh_digitChar (Nat.digits_lt_base (by norm_num) hd)

theorem natChars_ne_nil (n : Nat) : natChars n ≠ [] := by
  by_cases h0 : n = 0
  · subst h0; simp [natChars]
  · rw [natChars_eq h0]
    simp [Nat.digits_ne_nil_iff_ne_zero.mpr h0]

theorem natChars_length_le {n k : Nat} (hk : 1 ≤ k) (h : n < 10 ^ k) :
    (natChars n).length ≤ k := by
  by_cases h0 : n = 0
  · subst h0; simpa [natChars] using hk
  · rw [natChars_eq h0]
    simp only [List.length_map, List.length_reverse]
    rw [Nat.digits_len 10 n (by norm_num) h0]
    have := (Nat.lt_pow_iff_log_lt (by norm_num : 1 < 10) h0).mp h
    omega

theorem natChars_length_ge {n k : Nat} (h : 10 ^ k ≤ n) :
    k < (natChars n).length := by
  have h0 : n ≠ 0 := by
    have := pow_pos (by norm_num : (0 : Nat) < 10) k
    omega
  rw [natChars_eq h0]
  simp only [List.length_map, List.length_reverse]
  by_contra hlt
  push_neg at hlt
  have := Nat.lt_base_pow_length_digits (b := 10) (m := n) (by norm_num)
  have : n < 10 ^ k := lt_of_lt_of_le this (Nat.pow_le_pow_right (by norm_num) hlt)
  omega

theorem padStart_length (k : Nat) (c : Char) (s : List Char) :
    (padStart k c s).length = max k s.length := by
  simp only [padStart, List.length_append, List.length_replicate]
  omega

theorem padStart_eq_self {k : Nat} {c : Char} {s : List Char} (h : k ≤ s.length) :
    padStart k c s = s := by
  simp [padStart, Nat.sub_eq_zero_of_le h]

theorem digitsVal_zero_cons (l : List Char) : digitsVal ('0' :: l) = digitsVal l := rfl

theorem digitsVal_padStart_zero (k : Nat) (s : List Char) :
    digitsVal (padStart k '0' s) = digitsVal s := by
  rw [padStart]
  generalize (k - s.length) = m
  induction m with
  | zero => rfl
  | succ m ih => rw [List.replicate_succ, List.cons_append, digitsVal_zero_cons]; exact ih

theorem padStart_zero_all_digits {k : Nat} {s : List Char}
    (h : ∀ c ∈ s, isDigitCh c = true) : ∀ c ∈ padStart k '0' s, isDigitCh c = true := by
  intro c hc
  rw [padStart] at hc
  rcases List.mem_append.mp hc with hc | hc
  · rw [List.eq_of_mem_replicate hc]; decide
  · exact h c hc

theorem takeWhile_all {p : Char → Bool} :
    ∀ {a : List Char}, (∀ c ∈ a, p c = true) → a.takeWhile p = a := by
  intro a
  induction a with
  | nil => intro _; rfl
  | cons c t ih =>
    intro h
    rw [List.takeWhile_cons, if_pos (h c (List.mem_cons_self _ _)), ih (fun x hx => h x (List.mem_cons_of_mem c hx))]

theorem dropWhile_all {p : Char → Bool} :
    ∀ {a : List Char}, (∀ c ∈ a, p c = true) → a.dropWhile p = [] := by
  intro a
  induction a with
  | nil => intro _; rfl
  | cons c t ih =>
    intro h
    rw [List.dropWhile_cons, if_pos (h c (List.mem_cons_self _ _))]
    exact ih (fun x hx => h x (List.mem_cons_of_mem c hx))

theorem takeWhile_append_stop {p : Char → Bool} :
    ∀ {a : List Char}, (∀ c ∈ a, p c = true) → ∀ {c : Char}, p c = false →
      ∀ (b : List Char), (a ++ c :: b).takeWhile p = a := by
  intro a
  induction a with
  | nil =>
    intro _ c hc b
    simp [List.takeWhile_cons, hc]
  | cons x t ih =>
    intro h c hc b
    rw [List.cons_append, List.takeWhile_cons, if_pos (h x (List.mem_cons_self _ _)),
      ih (fun y hy => h y (List.mem_cons_of_mem x hy)) hc b]

theorem dropWhile_append_stop {p : Char → Bool} :
    ∀ {a : List Char}, (∀ c ∈ a, p c = true) → ∀ {c : Char}, p c = false →
      ∀ (b : List Char), (a ++ c :: b).dropWhile p = c :: b := by
  intro a
  induction a with
  | nil =>
    intro _ c hc b
    simp [List.dropWhile_cons, hc]
  | cons x t ih =>
    intro h c hc b
    rw [List.cons_append, List.dropWhile_cons, if_pos (h x (List.mem_cons_self _ _))]
    exact ih (fun y hy => h y (List.mem_cons_of_mem x hy)) hc b

theorem splitCh_not_mem {sep : Char} :
    ∀ {l : List Char}, sep ∉ l → splitCh sep l = [l] := by
  intro l
  induction l with
  | nil => intro _; rfl
  | cons c t ih =>
    intro h
    have hc : ¬ c = sep := fun hx => h (hx ▸ List.mem_cons_self _ _)
    rw [splitCh, if_neg hc, ih (fun hx => h (List.mem_cons_of_mem c hx))]

theorem splitCh_append {sep : Char} :
    ∀ {a : List Char}, sep ∉ a →
      ∀ (b : List Char), splitCh sep (a ++ sep :: b) = a :: splitCh sep b := by
  intro a
  induction a with
  | nil =>
    intro _ b
    simp [splitCh]
  | cons c t ih =>
    intro h b
    have hc : ¬ c = sep := fun hx => h (hx ▸ List.mem_cons_self _ _)
    rw [List.cons_append, splitCh, if_neg hc, ih (fun hx => h (List.mem_cons_of_mem c hx)) b]

/-- An index past the end of the list reads as an empty field. -/
theorem isEmpty_getD_of_le {l : List (Option JNum)} {j : Nat} (h : l.length ≤ j) :
    isEmpty (l.getD j none) = true := by
  rw [List.getD_eq_getElem?_getD, List.getElem?_eq_none h]
  rfl

/-- The hierarchy scan of the constructor, characterized: it accepts exactly
when emptiness propagates downward through the field list. -/
theorem hierCheck_iff :
    ∀ (l : List (Option JNum)),
      (match l.findIdx? (fun f => isEmpty f) with
       | none => true
       | some i => (l.drop i).all (fun f => isEmpty f)) = true
      ↔ ∀ i j : Nat, i ≤ j → isEmpty (l.getD i none) = true →
          isEmpty (l.getD j none) = true := by
  intro l
  induction l with
  | nil =>
    simp only [List.findIdx?_nil]
    constructor
    · intro _ i j _ _
      exact isEmpty_getD_of_le (Nat.zero_le j)
    · intro _; trivial
  | cons c t ih =>
    rw [List.findIdx?_cons]
    by_cases hc : isEmpty c = true
    · simp only [hc, if_true, List.drop_zero]
      constructor
      · intro hall i j hij hi
        by_cases hj : j < (c :: t).length
        · have hmem : (c :: t).getD j none ∈ c :: t := by
            rw [List.getD_eq_getElem?_getD, List.getElem?_eq_getElem hj, Option.getD_some]
            exact List.getElem_mem hj
          exact List.all_eq_true.mp hall _ hmem
        · exact isEmpty_getD_of_le (Nat.le_of_not_lt hj)
      · intro h
        rw [List.all_eq_true]
        intro x hx
        obtain ⟨n, hn, rfl⟩ := List.mem_iff_getElem.mp hx
        have := h 0 n (Nat.zero_le n) hc
        rwa [List.getD_eq_getElem?_getD, List.getElem?_eq_getElem hn, Option.getD_some] at this
    · have hcf : isEmpty c = false := Bool.eq_false_iff.mpr hc
      simp only [hcf, if_false, Bool.false_eq_true]
      rw [show t.findIdx? (fun f => isEmpty f) 1 =
          (t.findIdx? (fun f => isEmpty f)).map (fun i => i + 1) from List.findIdx?_succ]
      rcases hfi : t.findIdx? (fun f => isEmpty f) with _ | k
      · simp only [hfi, Option.map_none']
        constructor
        · intro _ i j hij hi
          by_cases hjl : (c :: t).length ≤ j
          · exact isEmpty_getD_of_le hjl
          · exfalso
            have hnone := List.findIdx?_eq_none_iff.mp hfi
            by_cases hil : (c :: t).length ≤ i
            · omega
            · rcases i with _ | i
              · rw [List.getD_cons_zero] at hi
                exact hc hi
              · rw [List.getD_cons_succ] at hi
                have : t.getD i none ∈ t := by
                  have hilen : i < t.length := by
                    simp only [List.length_cons] at hil; omega
                  rw [List.getD_eq_getElem?_getD, List.getElem?_eq_getElem hilen,
                    Option.getD_some]
                  exact List.getElem_mem hilen
                have := hnone _ this
                rw [this] at hi
                exact Bool.false_ne_true hi
        · intro _; trivial
      · simp only [hfi, Option.map_some']
        have hdrop : (c :: t).drop (k + 1) = t.drop k := rfl
        rw [hdrop]
        have iht := ih
        rw [hfi] at iht
        constructor
        · intro hall i j hij hi
          rcases i with _ | i
          · rw [List.getD_cons_zero] at hi
            exact absurd hi hc
          · rcases j with _ | j
            · omega
            · rw [List.getD_cons_succ] at hi ⊢
              exact iht.mp hall i j (by omega) hi
        · intro h
          exact iht.mpr (fun i j hij hi => by
            have := h (i + 1) (j + 1) (by omega)
            rw [List.getD_cons_succ, List.getD_cons_succ] at this
            exact this hi)

theorem dtFromObject_isSome_inv {y mo d h mi s ms : JNum}
    (hh : (dtFromObject y mo d h mi s ms).isSome = true) :
    ∃ yi moi di hi mii si msi : Int,
      y = .int yi ∧ mo = .int moi ∧ d = .int di ∧ h = .int hi ∧
      mi = .int mii ∧ s = .int si ∧ ms = .int msi ∧
      validFields ⟨yi, moi, di, hi, mii, si, msi⟩ = true := by
  rcases y with _ | yi <;> rcases mo with _ | moi <;> rcases d with _ | di <;>
    rcases h with _ | hi <;> rcases mi with _ | mii <;> rcases s with _ | si <;>
    rcases ms with _ | msi <;> simp only [dtFromObject, Option.isSome_none,
      Bool.false_eq_true] at hh
  refine ⟨yi, moi, di, hi, mii, si, msi, rfl, rfl, rfl, rfl, rfl, rfl, rfl, ?_⟩
  by_cases hv : validFields ⟨yi, moi, di, hi, mii, si, msi⟩ = true
  · exact hv
  · rw [if_neg hv] at hh
    exact absurd hh (by simp)

theorem create_ok_inv {o : FuzzyDateOptions} {fd : FuzzyDate}
    (h : FuzzyDate.create o = .ok fd) :
    isOptionsFilledInHierarchy o = true ∧ isOptionsOnCalendar o = true ∧
      fd = ⟨o.year, o.month, o.day, o.hour, o.minute, o.second, o.millisecond⟩ := by
  cases h1 : isOptionsFilledInHierarchy o <;> cases h2 : isOptionsOnCalendar o <;>
    simp only [FuzzyDate.create, h1, h2, Bool.not_false, Bool.not_true,
      Bool.false_eq_true, not_false_iff, if_true, if_false, ite_true, ite_false,
      not_true_eq_false] at h
  · exact absurd h (by simp)
  · exact absurd h (by simp)
  · exact absurd h (by simp)
  · injection h with h'
    exact ⟨rfl, rfl, h'.symm⟩

theorem field_inv {f : Option JNum} {dflt v : Int} (h : f.getD (.int dflt) = .int v) :
    ∃ w : Option Int, f = w.map JNum.int ∧ w.getD dflt = v ∧
      (isEmpty f = true ↔ w = none) := by
  rcases f with _ | j
  · refine ⟨none, rfl, ?_, by simp [isEmpty]⟩
    simpa using h
  · rcases j with _ | n
    · exact absurd h (by simp [Option.getD])
    · refine ⟨some n, rfl, ?_, by simp [isEmpty]⟩
      simpa using h

/-- Options with known integer payloads, used to state the shape of every
constructible record. -/
def mkOptions (y : Int) (mo d h mi s ms : Option Int) : FuzzyDateOptions :=
  ⟨.int y, mo.map JNum.int, d.map JNum.int, h.map JNum.int,
    mi.map JNum.int, s.map JNum.int, ms.map JNum.int⟩

/-- A FuzzyDate with known integer payloads. -/
def mkFuzzy (y : Int) (mo d h mi s ms : Option Int) : FuzzyDate :=
  ⟨.int y, mo.map JNum.int, d.map JNum.int, h.map JNum.int,
    mi.map JNum.int, s.map JNum.int, ms.map JNum.int⟩

/-- Every options record that passes both constructor checks consists of an
integer year and a contiguous prefix of integer fields, and its minimally
padded tuple is calendar-valid. -/
theorem valid_shape {o : FuzzyDateOptions}
    (h1 : isOptionsFilledInHierarchy o = true)
    (h2 : isOptionsOnCalendar o = true) :
    ∃ (y : Int) (mo d h mi s ms : Option Int),
      o = mkOptions y mo d h mi s ms ∧
      (mo = none → d = none) ∧ (d = none → h = none) ∧ (h = none → mi = none) ∧
      (mi = none → s = none) ∧ (s = none → ms = none) ∧
      validFields ⟨y, mo.getD 1, d.getD 1, h.getD 0, mi.getD 0, s.getD 0,
        ms.getD 0⟩ = true := by
  rcases o with ⟨oy, om, od, oh, omi, os, oms⟩
  rw [isOptionsOnCalendar] at h2
  obtain ⟨yi, moi, di, hi, mii, si, msi, hy, hmo, hd, hho, hmi, hs, hms, hv⟩ :=
    dtFromObject_isSome_inv h2
  obtain ⟨mo, hmoEq, hmoV, hmoE⟩ := field_inv hmo
  obtain ⟨d, hdEq, hdV, hdE⟩ := field_inv hd
  obtain ⟨h, hhEq, hhV, hhE⟩ := field_inv hho
  obtain ⟨mi, hmiEq, hmiV, hmiE⟩ := field_inv hmi
  obtain ⟨s, hsEq, hsV, hsE⟩ := field_inv hs
  obtain ⟨ms, hmsEq, hmsV, hmsE⟩ := field_inv hms
  dsimp only at hy hmoEq hdEq hhEq hmiEq hsEq hmsEq hmoE hdE hhE hmiE hsE hmsE
  have hprop := (hierCheck_iff (optionFields ⟨oy, om, od, oh, omi, os, oms⟩)).mp h1
  refine ⟨yi, mo, d, h, mi, s, ms, ?_, ?_, ?_, ?_, ?_, ?_, ?_⟩
  · rw [mkOptions, hy, hmoEq, hdEq, hhEq, hmiEq, hsEq, hmsEq]
  · intro hn
    exact hdE.mp (hprop 1 2 (by omega) (hmoE.mpr hn))
  · intro hn
    exact hhE.mp (hprop 2 3 (by omega) (hdE.mpr hn))
  · intro hn
    exact hmiE.mp (hprop 3 4 (by omega) (hhE.mpr hn))
  · intro hn
    exact hsE.mp (hprop 4 5 (by omega) (hmiE.mpr hn))
  · intro hn
    exact hmsE.mp (hprop 5 6 (by omega) (hsE.mpr hn))
  · rw [hmoV, hdV, hhV, hmiV, hsV, hmsV]
    exact hv

/-- Every constructed FuzzyDate has one of the seven prefix shapes, with its
defined fields integers in calendar range. -/
theorem fd_cases {o : FuzzyDateOptions} {fd : FuzzyDate}
    (hok : FuzzyDate.create o = .ok fd) :
    ∃ y : Int,
      fd = mkFuzzy y none none none none none none ∨
      (∃ m, (1 ≤ m ∧ m ≤ 12) ∧
        fd = mkFuzzy y (some m) none none none none none) ∨
      (∃ m d, (1 ≤ m ∧ m ≤ 12) ∧ (1 ≤ d ∧ d ≤ daysInMonth y m) ∧
        fd = mkFuzzy y (some m) (some d) none none none none) ∨
      (∃ m d h, (1 ≤ m ∧ m ≤ 12) ∧ (1 ≤ d ∧ d ≤ daysInMonth y m) ∧
        (0 ≤ h ∧ h ≤ 23) ∧
        fd = mkFuzzy y (some m) (some d) (some h) none none none) ∨
      (∃ m d h mi, (1 ≤ m ∧ m ≤ 12) ∧ (1 ≤ d ∧ d ≤ daysInMonth y m) ∧
        (0 ≤ h ∧ h ≤ 23) ∧ (0 ≤ mi ∧ mi ≤ 59) ∧
        fd = mkFuzzy y (some m) (some d) (some h) (some mi) none none) ∨
      (∃ m d h mi s, (1 ≤ m ∧ m ≤ 12) ∧ (1 ≤ d ∧ d ≤ daysInMonth y m) ∧
        (0 ≤ h ∧ h ≤ 23) ∧ (0 ≤ mi ∧ mi ≤ 59) ∧ (0 ≤ s ∧ s ≤ 59) ∧
        fd = mkFuzzy y (some m) (some d) (some h) (some mi) (some s) none) ∨
      (∃ m d h mi s ms, (1 ≤ m ∧ m ≤ 12) ∧ (1 ≤ d ∧ d ≤ daysInMonth y m) ∧
        (0 ≤ h ∧ h ≤ 23) ∧ (0 ≤ mi ∧ mi ≤ 59) ∧ (0 ≤ s ∧ s ≤ 59) ∧
        (0 ≤ ms ∧ ms ≤ 999) ∧
        fd = mkFuzzy y (some m) (some d) (some h) (some mi) (some s) (some ms)) := by
  obtain ⟨h1, h2, hfd⟩ := create_ok_inv hok
  obtain ⟨y, mo, d, h, mi, s, ms, hoEq, c1, c2, c3, c4, c5, hval⟩ := valid_shape h1 h2
  subst hoEq
  have hfd' : fd = mkFuzzy y mo d h mi s ms := hfd
  refine ⟨y, ?_⟩
  rcases mo with _ | m
  · obtain rfl : d = none := c1 rfl
    obtain rfl : h = none := c2 rfl
    obtain rfl : mi = none := c3 rfl
    obtain rfl : s = none := c4 rfl
    obtain rfl : ms = none := c5 rfl
    exact Or.inl hfd'
  · rcases d with _ | dv
    · obtain rfl : h = none := c2 rfl
      obtain rfl : mi = none := c3 rfl
      obtain rfl : s = none := c4 rfl
      obtain rfl : ms = none := c5 rfl
      simp only [Option.getD_some, Option.getD_none, validFields,
        decide_eq_true_eq] at hval
      exact Or.inr (Or.inl ⟨m, ⟨hval.1, hval.2.1⟩, hfd'⟩)
    · rcases h with _ | hv
      · obtain rfl : mi = none := c3 rfl
        obtain rfl : s = none := c4 rfl
        obtain rfl : ms = none := c5 rfl
        simp only [Option.getD_some, Option.getD_none, validFields,
          decide_eq_true_eq] at hval
        obtain ⟨a1, a2, a3, a4, _⟩ := hval
        exact Or.inr (Or.inr (Or.inl ⟨m, dv, ⟨a1, a2⟩, ⟨a3, a4⟩, hfd'⟩))
      · rcases mi with _ | miv
        · obtain rfl : s = none := c4 rfl
          obtain rfl : ms = none := c5 rfl
          simp only [Option.getD_some, Option.getD_none, validFields,
            decide_eq_true_eq] at hval
          obtain ⟨a1, a2, a3, a4, a5, a6, _⟩ := hval
          exact Or.inr (Or.inr (Or.inr (Or.inl
            ⟨m, dv, hv, ⟨a1, a2⟩, ⟨a3, a4⟩, ⟨a5, a6⟩, hfd'⟩)))
        · rcases s with _ | sv
          · obtain rfl : ms = none := c5 rfl
            simp only [Option.getD_some, Option.getD_none, validFields,
              decide_eq_true_eq] at hval
            obtain ⟨a1, a2, a3, a4, a5, a6, a7, a8, _⟩ := hval
            exact Or.inr (Or.inr (Or.inr (Or.inr (Or.inl
              ⟨m, dv, hv, miv, ⟨a1, a2⟩, ⟨a3, a4⟩, ⟨a5, a6⟩, ⟨a7, a8⟩, hfd'⟩))))
          · rcases ms with _ | msv
            · simp only [Option.getD_some, Option.getD_none, validFields,
                decide_eq_true_eq] at hval
              obtain ⟨a1, a2, a3, a4, a5, a6, a7, a8, a9, a10, _⟩ := hval
              exact Or.inr (Or.inr (Or.inr (Or.inr (Or.inr (Or.inl
                ⟨m, dv, hv, miv, sv, ⟨a1, a2⟩, ⟨a3, a4⟩, ⟨a5, a6⟩, ⟨a7, a8⟩,
                  ⟨a9, a10⟩, hfd'⟩)))))
            · simp only [Option.getD_some, Option.getD_none, validFields,
                decide_eq_true_eq] at hval
              obtain ⟨a1, a2, a3, a4, a5, a6, a7, a8, a9, a10, a11, a12⟩ := hval
              exact Or.inr (Or.inr (Or.inr (Or.inr (Or.inr (Or.inr
                ⟨m, dv, hv, miv, sv, msv, ⟨a1, a2⟩, ⟨a3, a4⟩, ⟨a5, a6⟩, ⟨a7, a8⟩,
                  ⟨a9, a10⟩, ⟨a11, a12⟩, hfd'⟩)))))

/-- The hierarchy scan of the source accepts exactly the records whose
defined fields form a contiguous prefix. -/
theorem hierarchy_check_iff_contiguous (o : FuzzyDateOptions) :
    isOptionsFilledInHierarchy o = true ↔ contiguousPrefix o := by
  constructor
  · intro hcheck j hj i hij hjf
    have hprop := (hierCheck_iff (optionFields o)).mp hcheck
    by_contra hif
    rw [Bool.not_eq_false] at hif
    have := hprop i j hij hif
    rw [show fieldAt o j = (optionFields o).getD j none from rfl] at hjf
    rw [hjf] at this
    exact Bool.false_ne_true this
  · intro hcont
    apply (hierCheck_iff (optionFields o)).mpr
    intro i j hij hi
    by_cases hj7 : 7 ≤ j
    · exact isEmpty_getD_of_le (by
        rw [show (optionFields o).length = 7 from rfl]; omega)
    · by_contra hjf
      rw [Bool.not_eq_true] at hjf
      have := hcont j (by omega) i hij hjf
      rw [show fieldAt o i = (optionFields o).getD i none from rfl] at this
      rw [hi] at this
      exact absurd this (by simp)

/-- C3: the FuzzyDate constructor throws HierarchyError exactly for options
records whose defined fields do not form a contiguous prefix of the
hierarchy order; since this holds regardless of calendar validity, the
hierarchy check runs before the calendar check. -/
theorem C3_hierarchy_error_iff_gap :
    ∀ o : FuzzyDateOptions,
      FuzzyDate.create o = .error .hierarchyError ↔ ¬ contiguousPrefix o := by
  intro o
  rw [← hierarchy_check_iff_contiguous]
  cases h1 : isOptionsFilledInHierarchy o
  · simp [FuzzyDate.create, h1]
  · cases h2 : isOptionsOnCalendar o <;> simp [FuzzyDate.create, h1, h2]

/-- Witness for C3 at the record with a day but no month: the prefix rule is
violated and construction yields HierarchyError; and at a calendar-invalid
prefix record the hierarchy check passes, so no HierarchyError arises. -/
theorem C3_witness :
    (¬ contiguousPrefix (mkOptions 2023 none (some 15) none none none none) ∧
      FuzzyDate.create (mkOptions 2023 none (some 15) none none none none) =
        .error .hierarchyError) ∧
    (contiguousPrefix (mkOptions 2023 (some 13) none none none none none) ∧
      FuzzyDate.create (mkOptions 2023 (some 13) none none none none none) ≠
        .error .hierarchyError) := by
  constructor
  · refine ⟨by decide, ?_⟩
    exact (C3_hierarchy_error_iff_gap
      (mkOptions 2023 none (some 15) none none none none)).mpr (by decide)
  · refine ⟨by decide, ?_⟩
    intro hco
    exact absurd ((C3_hierarchy_error_iff_gap
      (mkOptions 2023 (some 13) none none none none none)).mp hco) (by decide)

/-- C10: an options record with a NaN optional field and all finer fields
empty, here year 2023 with month NaN, passes the hierarchy check (isEmpty
treats NaN as absent) but fails construction with CalendarError: the
nullish-coalescing defaults replace only undefined, so the padded tuple
handed to the calendar oracle still contains the NaN and is rejected. -/
theorem C10_nan_field_calendar_error :
    isOptionsFilledInHierarchy ⟨.int 2023, some .nan, none, none, none, none, none⟩ = true ∧
    (Option.getD (some JNum.nan) (.int 1)) = JNum.nan ∧
    FuzzyDate.create ⟨.int 2023, some .nan, none, none, none, none, none⟩ =
      .error .calendarError := by
  exact ⟨rfl, rfl, rfl⟩

/-- C4: for every options record that passes the hierarchy check, the
constructor throws CalendarError exactly when the calendar oracle rejects
the minimally padded tuple (undefined fields nullish-coalesced to their
floor defaults); otherwise construction succeeds with the fields stored
unchanged, and every successfully constructed instance satisfies both
validation predicates, so no invalid instance can be obtained. -/
theorem C4_calendar_error_iff :
    ∀ o : FuzzyDateOptions, isOptionsFilledInHierarchy o = true →
      (FuzzyDate.create o = .error .calendarError ↔
        (dtFromObject o.year (o.month.getD (.int 1)) (o.day.getD (.int 1))
          (o.hour.getD (.int 0)) (o.minute.getD (.int 0)) (o.second.getD (.int 0))
          (o.millisecond.getD (.int 0))).isSome = false) ∧
      ((dtFromObject o.year (o.month.getD (.int 1)) (o.day.getD (.int 1))
          (o.hour.getD (.int 0)) (o.minute.getD (.int 0)) (o.second.getD (.int 0))
          (o.millisecond.getD (.int 0))).isSome = true →
        FuzzyDate.create o =
          .ok ⟨o.year, o.month, o.day, o.hour, o.minute, o.second, o.millisecond⟩) ∧
      (∀ fd, FuzzyDate.create o = .ok fd →
        isOptionsFilledInHierarchy o = true ∧ isOptionsOnCalendar o = true ∧
          fd = ⟨o.year, o.month, o.day, o.hour, o.minute, o.second, o.millisecond⟩) := by
  intro o h1
  refine ⟨?_, ?_, ?_⟩
  · cases h2 : isOptionsOnCalendar o
    · exact ⟨fun _ => h2, fun _ => by simp [FuzzyDate.create, h1, h2]⟩
    · constructor
      · intro hcr
        simp [FuzzyDate.create, h1, h2] at hcr
      · intro hfalse
        have h2' : (dtFromObject o.year (o.month.getD (.int 1)) (o.day.getD (.int 1))
            (o.hour.getD (.int 0)) (o.minute.getD (.int 0)) (o.second.getD (.int 0))
            (o.millisecond.getD (.int 0))).isSome = true := h2
        exact Bool.noConfusion (h2'.symm.trans hfalse)
  · intro hsome
    have h2 : isOptionsOnCalendar o = true := hsome
    simp [FuzzyDate.create, h1, h2]
  · intro fd hok
    exact create_ok_inv hok

/-- Witness for C4: month 13 passes the hierarchy check, the oracle rejects
the padded tuple, and construction yields CalendarError; February 29 of a
leap year passes and construction succeeds. -/
theorem C4_witness :
    (isOptionsFilledInHierarchy (mkOptions 2023 (some 13) none none none none none) = true ∧
      FuzzyDate.create (mkOptions 2023 (some 13) none none none none none) =
        .error .calendarError) ∧
    (isOptionsFilledInHierarchy
        (mkOptions 2024 (some 2) (some 29) none none none none) = true ∧
      FuzzyDate.create (mkOptions 2024 (some 2) (some 29) none none none none) =
        .ok (mkFuzzy 2024 (some 2) (some 29) none none none none)) := by
  constructor
  · refine ⟨by decide, ?_⟩
    exact ((C4_calendar_error_iff
      (mkOptions 2023 (some 13) none none none none none) (by decide)).1).mpr (by decide)
  · refine ⟨by decide, ?_⟩
    exact ((C4_calendar_error_iff
      (mkOptions 2024 (some 2) (some 29) none none none none) (by decide)).2.1) (by decide)

/-- C7: on every constructed instance, getEarliestPaddingOptions keeps the
year, passes each defined field through unchanged and substitutes the floor
default (month and day 1, time fields 0) for each undefined one; being a
total function of the stored fields it never fails; and on year 2023 month 5
it yields the tuple 2023-05-01T00:00:00.000. -/
theorem C7_earliest_padding :
    (∀ (o : FuzzyDateOptions) (fd : FuzzyDate), FuzzyDate.create o = .ok fd →
      fd.getEarliestPaddingOptions.year = fd.year ∧
      (fd.month = none → fd.getEarliestPaddingOptions.month = .int 1) ∧
      (∀ j, fd.month = some j → fd.getEarliestPaddingOptions.month = j) ∧
      (fd.day = none → fd.getEarliestPaddingOptions.day = .int 1) ∧
      (∀ j, fd.day = some j → fd.getEarliestPaddingOptions.day = j) ∧
      (fd.hour = none → fd.getEarliestPaddingOptions.hour = .int 0) ∧
      (∀ j, fd.hour = some j → fd.getEarliestPaddingOptions.hour = j) ∧
      (fd.minute = none → fd.getEarliestPaddingOptions.minute = .int 0) ∧
      (∀ j, fd.minute = some j → fd.getEarliestPaddingOptions.minute = j) ∧
      (fd.second = none → fd.getEarliestPaddingOptions.second = .int 0) ∧
      (∀ j, fd.second = some j → fd.getEarliestPaddingOptions.second = j) ∧
      (fd.millisecond = none → fd.getEarliestPaddingOptions.millisecond = .int 0) ∧
      (∀ j, fd.millisecond = some j → fd.getEarliestPaddingOptions.millisecond = j)) ∧
    (FuzzyDate.create (mkOptions 2023 (some 5) none none none none none)).map
      FuzzyDate.getEarliestPaddingOptions =
      .ok ⟨.int 2023, .int 5, .int 1, .int 0, .int 0, .int 0, .int 0⟩ := by
  constructor
  · intro o fd _
    refine ⟨rfl, ?_, ?_, ?_, ?_, ?_, ?_, ?_, ?_, ?_, ?_, ?_, ?_⟩ <;>
      first
        | (intro hn; simp [FuzzyDate.getEarliestPaddingOptions, hn])
        | (intro j hj; simp [FuzzyDate.getEarliestPaddingOptions, hj])
  · rfl

/-- Witness for C7: the universal part applied to the year-month instance of
the example. -/
theorem C7_witness :
    FuzzyDate.create (mkOptions 2023 (some 5) none none none none none) =
      .ok (mkFuzzy 2023 (some 5) none none none none none) ∧
    (mkFuzzy 2023 (some 5) none none none none none).getEarliestPaddingOptions.day =
      .int 1 := by
  refine ⟨by rfl, ?_⟩
  exact (C7_earliest_padding.1 (mkOptions 2023 (some 5) none none none none none)
    (mkFuzzy 2023 (some 5) none none none none none) (by rfl)).2.2.2.1 rfl

/-- C8: on every constructed instance getPrecision — which scans from
millisecond up to year and treats a stored zero as defined — returns the
name of the finest defined field, i.e. the last defined field in hierarchy
order; on year-month-day with hour 0 it returns hour. -/
theorem C8_precision :
    (∀ (o : FuzzyDateOptions) (fd : FuzzyDate), FuzzyDate.create o = .ok fd →
      fd.getPrecision = finestDefined fd) ∧
    (FuzzyDate.create (mkOptions 2023 (some 5) (some 15) (some 0) none none none)).map
      FuzzyDate.getPrecision = .ok .hour := by
  constructor
  · intro o fd hok
    obtain ⟨y, hc⟩ := fd_cases hok
    rcases hc with h | ⟨m, _, h⟩ | ⟨m, d, _, _, h⟩ | ⟨m, d, hh, _, _, _, h⟩ |
      ⟨m, d, hh, mi, _, _, _, _, h⟩ | ⟨m, d, hh, mi, s, _, _, _, _, _, h⟩ |
      ⟨m, d, hh, mi, s, ms, _, _, _, _, _, _, h⟩ <;> subst h <;>
      simp [FuzzyDate.getPrecision, finestDefined, mkFuzzy, isEmpty]
  · rfl

/-- Witness for C8: the universal part applied to the example instance with
hour zero. -/
theorem C8_witness :
    FuzzyDate.create (mkOptions 2023 (some 5) (some 15) (some 0) none none none) =
      .ok (mkFuzzy 2023 (some 5) (some 15) (some 0) none none none) ∧
    (mkFuzzy 2023 (some 5) (some 15) (some 0) none none none).getPrecision =
      finestDefined (mkFuzzy 2023 (some 5) (some 15) (some 0) none none none) := by
  refine ⟨by rfl, ?_⟩
  exact C8_precision.1 (mkOptions 2023 (some 5) (some 15) (some 0) none none none)
    (mkFuzzy 2023 (some 5) (some 15) (some 0) none none none) (by rfl)

/-- C9: the FuzzyDuration constructor (modelled from the spec) is total, so
it never fails; every omitted unit is stored as 0; the precision is the
finest unit whose input was not empty, checked from milliseconds up to
years, and a unit explicitly passed as 0 still raises the precision to that
unit; the empty record gives precision years with all fields 0, and the
record with years 1 and seconds 20 gives precision seconds with the
intermediate units 0. -/
theorem C9_duration_defaults_and_precision :
    (∀ o : FuzzyDurationOptions,
      (o.years = none → (FuzzyDuration.create o).years = 0) ∧
      (o.months = none → (FuzzyDuration.create o).months = 0) ∧
      (o.days = none → (FuzzyDuration.create o).days = 0) ∧
      (o.hours = none → (FuzzyDuration.create o).hours = 0) ∧
      (o.minutes = none → (FuzzyDuration.create o).minutes = 0) ∧
      (o.seconds = none → (FuzzyDuration.create o).seconds = 0) ∧
      (o.milliseconds = none → (FuzzyDuration.create o).milliseconds = 0)) ∧
    (∀ (o : FuzzyDurationOptions) (v : Int), o.milliseconds = some (.int v) →
      (FuzzyDuration.create o).precision = .milliseconds) ∧
    FuzzyDuration.create ⟨none, none, none, none, none, none, none⟩ =
      ⟨0, 0, 0, 0, 0, 0, 0, .years⟩ ∧
    FuzzyDuration.create
        ⟨some (.int 1), none, none, none, none, some (.int 20), none⟩ =
      ⟨1, 0, 0, 0, 0, 20, 0, .seconds⟩ ∧
    FuzzyDuration.create
        ⟨none, none, none, none, none, some (.int 10), some (.int 500)⟩ =
      ⟨0, 0, 0, 0, 0, 10, 500, .milliseconds⟩ := by
  refine ⟨?_, ?_, rfl, rfl, rfl⟩
  · intro o
    refine ⟨?_, ?_, ?_, ?_, ?_, ?_, ?_⟩ <;>
      (intro hn; simp [FuzzyDuration.create, durField, hn])
  · intro o v hv
    simp [FuzzyDuration.create, hv, isEmpty]

/-- Witness for C9: the universal parts applied to the record with years 1
and an explicit zero milliseconds, whose precision is milliseconds. -/
theorem C9_witness :
    (FuzzyDuration.create
        ⟨some (.int 1), none, none, none, none, none, some (.int 0)⟩).months = 0 ∧
    (FuzzyDuration.create
        ⟨some (.int 1), none, none, none, none, none, some (.int 0)⟩).precision =
      .milliseconds := by
  constructor
  · exact (C9_duration_defaults_and_precision.1
      ⟨some (.int 1), none, none, none, none, none, some (.int 0)⟩).2.1 rfl
  · exact C9_duration_defaults_and_precision.2.1
      ⟨some (.int 1), none, none, none, none, none, some (.int 0)⟩ 0 rfl

theorem dim_pos (y m : Int) : 1 ≤ daysInMonth y m := by
  unfold daysInMonth
  split_ifs <;> norm_num

theorem dim_12 (y : Int) : daysInMonth y 12 = 31 := by
  norm_num [daysInMonth]

theorem subOneMs_addOneDay {y m d : Int} (hm1 : 1 ≤ m) (hm2 : m ≤ 12)
    (hd1 : 1 ≤ d) (hd2 : d ≤ daysInMonth y m) :
    subOneMs (addOneDay ⟨y, m, d, 0, 0, 0, 0⟩) = ⟨y, m, d, 23, 59, 59, 999⟩ := by
  by_cases hlt : d < daysInMonth y m
  · rw [addOneDay]
    rw [if_pos hlt]
    rw [subOneMs]
    norm_num
    intro h
    exact absurd h (by omega)
  · have hdim : d = daysInMonth y m := by omega
    by_cases hm12 : m < 12
    · rw [addOneDay]
      rw [if_neg hlt, if_pos hm12]
      rw [subOneMs]
      norm_num
      rw [if_pos (by omega : (0:Int) < m), hdim]
    · have : m = 12 := by omega
      subst this
      rw [addOneDay]
      rw [if_neg hlt, if_neg hm12]
      rw [subOneMs]
      norm_num
      rw [dim_12] at hdim
      omega

theorem subOneMs_addOneHour {y m d h : Int} (hm1 : 1 ≤ m) (hm2 : m ≤ 12)
    (hd1 : 1 ≤ d) (hd2 : d ≤ daysInMonth y m) (hh1 : 0 ≤ h) (hh2 : h ≤ 23) :
    subOneMs (addOneHour ⟨y, m, d, h, 0, 0, 0⟩) = ⟨y, m, d, h, 59, 59, 999⟩ := by
  by_cases hlt : h < 23
  · rw [addOneHour, if_pos hlt, subOneMs]
    norm_num
    intro hcon
    exact absurd hcon (by omega)
  · have h23 : h = 23 := by omega
    subst h23
    rw [addOneHour, if_neg hlt]
    exact subOneMs_addOneDay hm1 hm2 hd1 hd2

theorem subOneMs_addOneMinute {y m d h mi : Int} (hm1 : 1 ≤ m) (hm2 : m ≤ 12)
    (hd1 : 1 ≤ d) (hd2 : d ≤ daysInMonth y m) (hh1 : 0 ≤ h) (hh2 : h ≤ 23)
    (hmi1 : 0 ≤ mi) (hmi2 : mi ≤ 59) :
    subOneMs (addOneMinute ⟨y, m, d, h, mi, 0, 0⟩) = ⟨y, m, d, h, mi, 59, 999⟩ := by
  by_cases hlt : mi < 59
  · rw [addOneMinute, if_pos hlt, subOneMs]
    norm_num
    intro hcon
    exact absurd hcon (by omega)
  · have h59 : mi = 59 := by omega
    subst h59
    rw [addOneMinute, if_neg hlt]
    exact subOneMs_addOneHour hm1 hm2 hd1 hd2 hh1 hh2

theorem subOneMs_addOneSecond {y m d h mi s : Int} (hm1 : 1 ≤ m) (hm2 : m ≤ 12)
    (hd1 : 1 ≤ d) (hd2 : d ≤ daysInMonth y m) (hh1 : 0 ≤ h) (hh2 : h ≤ 23)
    (hmi1 : 0 ≤ mi) (hmi2 : mi ≤ 59) (hs1 : 0 ≤ s) (hs2 : s ≤ 59) :
    subOneMs (addOneSecond ⟨y, m, d, h, mi, s, 0⟩) = ⟨y, m, d, h, mi, s, 999⟩ := by
  by_cases hlt : s < 59
  · rw [addOneSecond, if_pos hlt, subOneMs]
    norm_num
    intro hcon
    exact absurd hcon (by omega)
  · have h59 : s = 59 := by omega
    subst h59
    rw [addOneSecond, if_neg hlt]
    exact subOneMs_addOneMinute hm1 hm2 hd1 hd2 hh1 hh2 hmi1 hmi2

theorem subOneMs_year_start (y : Int) :
    subOneMs ⟨y + 1, 1, 1, 0, 0, 0, 0⟩ = ⟨y, 12, 31, 23, 59, 59, 999⟩ := by
  rw [subOneMs]
  norm_num

theorem subOneMs_month_start {y m : Int} (hm1 : 1 ≤ m) :
    subOneMs ⟨y, m + 1, 1, 0, 0, 0, 0⟩ =
      ⟨y, m, daysInMonth y m, 23, 59, 59, 999⟩ := by
  rw [subOneMs]
  norm_num
  omega

theorem validFields_mk {y m d h mi s ms : Int} (hm1 : 1 ≤ m) (hm2 : m ≤ 12)
    (hd1 : 1 ≤ d) (hd2 : d ≤ daysInMonth y m) (hh1 : 0 ≤ h) (hh2 : h ≤ 23)
    (hmi1 : 0 ≤ mi) (hmi2 : mi ≤ 59) (hs1 : 0 ≤ s) (hs2 : s ≤ 59)
    (hms1 : 0 ≤ ms) (hms2 : ms ≤ 999) :
    validFields ⟨y, m, d, h, mi, s, ms⟩ = true := by
  simp only [validFields, decide_eq_true_eq]
  exact ⟨hm1, hm2, hd1, hd2, hh1, hh2, hmi1, hmi2, hs1, hs2, hms1, hms2⟩

theorem latest_eq_latestSpec :
    ∀ (o : FuzzyDateOptions) (fd : FuzzyDate), FuzzyDate.create o = .ok fd →
      fd.getLatestPaddingOptions = latestSpec fd := by
  intro o fd hok
  obtain ⟨y, hc⟩ := fd_cases hok
  rcases hc with h | ⟨m, hm, h⟩ | ⟨m, d, hm, hd, h⟩ | ⟨m, d, hh, hm, hd, hhb, h⟩ |
    ⟨m, d, hh, mi, hm, hd, hhb, hmib, h⟩ |
    ⟨m, d, hh, mi, s, hm, hd, hhb, hmib, hsb, h⟩ |
    ⟨m, d, hh, mi, s, ms, hm, hd, hhb, hmib, hsb, hmsb, h⟩ <;> subst h
  · simp only [FuzzyDate.getLatestPaddingOptions, latestSpec, mkFuzzy,
      Option.map_none', isEmpty, if_true, JNum.add, dtMap, dtFromObject]
    rw [if_pos (validFields_mk le_rfl (by norm_num) le_rfl (dim_pos (y + 1) 1)
      le_rfl (by norm_num) le_rfl (by norm_num) le_rfl (by norm_num) le_rfl (by norm_num))]
    rw [Option.map_some', subOneMs_year_start]
    rfl
  · by_cases h12 : m = 12
    · subst h12
      simp only [FuzzyDate.getLatestPaddingOptions, latestSpec, mkFuzzy,
        Option.map_none', Option.map_some', isEmpty, Option.getD_some,
        JNum.add, JNum.gt, dimJ, dtMap, dtFromObject, Bool.false_eq_true,
        if_false, if_true]
      norm_num
      rw [subOneMs_year_start, if_pos (validFields_mk le_rfl (by norm_num) le_rfl
        (dim_pos (y + 1) 1) le_rfl (by norm_num) le_rfl (by norm_num)
        le_rfl (by norm_num) le_rfl (by norm_num))]
      simp [dtGet, dim_12]
    · have hlt : ¬ ((12 : Int) < m + 1) := by omega
      simp only [FuzzyDate.getLatestPaddingOptions, latestSpec, mkFuzzy,
        Option.map_none', Option.map_some', isEmpty, Option.getD_some,
        JNum.add, JNum.gt, dimJ, hlt, decide_False, Bool.false_eq_true,
        if_false, if_true, dtMap, dtFromObject]
      rw [if_pos (validFields_mk (by omega) (by omega) le_rfl
        (dim_pos y (m + 1)) le_rfl (by norm_num) le_rfl (by norm_num)
        le_rfl (by norm_num) le_rfl (by norm_num))]
      rw [Option.map_some', subOneMs_month_start hm.1]
      rfl
  · simp only [FuzzyDate.getLatestPaddingOptions, latestSpec, mkFuzzy,
      Option.map_none', Option.map_some', isEmpty, Option.getD_some,
      dimJ, dtMap, dtFromObject, Bool.false_eq_true, if_false, if_true]
    rw [if_pos (validFields_mk hm.1 hm.2 hd.1 hd.2 le_rfl (by norm_num)
      le_rfl (by norm_num) le_rfl (by norm_num) le_rfl (by norm_num))]
    rw [Option.map_some', Option.map_some', subOneMs_addOneDay hm.1 hm.2 hd.1 hd.2]
    rfl
  · simp only [FuzzyDate.getLatestPaddingOptions, latestSpec, mkFuzzy,
      Option.map_none', Option.map_some', isEmpty, Option.getD_some,
      dimJ, dtMap, dtFromObject, Bool.false_eq_true, if_false, if_true]
    rw [if_pos (validFields_mk hm.1 hm.2 hd.1 hd.2 hhb.1 hhb.2
      le_rfl (by norm_num) le_rfl (by norm_num) le_rfl (by norm_num))]
    rw [Option.map_some', Option.map_some',
      subOneMs_addOneHour hm.1 hm.2 hd.1 hd.2 hhb.1 hhb.2]
    rfl
  · simp only [FuzzyDate.getLatestPaddingOptions, latestSpec, mkFuzzy,
      Option.map_none', Option.map_some', isEmpty, Option.getD_some,
      dimJ, dtMap, dtFromObject, Bool.false_eq_true, if_false, if_true]
    rw [if_pos (validFields_mk hm.1 hm.2 hd.1 hd.2 hhb.1 hhb.2 hmib.1 hmib.2
      le_rfl (by norm_num) le_rfl (by norm_num))]
    rw [Option.map_some', Option.map_some',
      subOneMs_addOneMinute hm.1 hm.2 hd.1 hd.2 hhb.1 hhb.2 hmib.1 hmib.2]
    rfl
  · simp only [FuzzyDate.getLatestPaddingOptions, latestSpec, mkFuzzy,
      Option.map_none', Option.map_some', isEmpty, Option.getD_some,
      dimJ, dtMap, dtFromObject, Bool.false_eq_true, if_false, if_true]
    rw [if_pos (validFields_mk hm.1 hm.2 hd.1 hd.2 hhb.1 hhb.2 hmib.1 hmib.2
      hsb.1 hsb.2 le_rfl (by norm_num))]
    rw [Option.map_some', Option.map_some',
      subOneMs_addOneSecond hm.1 hm.2 hd.1 hd.2 hhb.1 hhb.2 hmib.1 hmib.2 hsb.1 hsb.2]
    rfl
  · simp only [FuzzyDate.getLatestPaddingOptions, latestSpec, mkFuzzy,
      Option.map_none', Option.map_some', isEmpty, Option.getD_some,
      dimJ, dtMap, dtFromObject, Bool.false_eq_true, if_false, if_true]
    rw [if_pos (validFields_mk hm.1 hm.2 hd.1 hd.2 hhb.1 hhb.2 hmib.1 hmib.2
      hsb.1 hsb.2 hmsb.1 hmsb.2)]
    rfl

/-- C2: on every constructed instance getLatestPaddingOptions returns the
tuple reached by computing the first instant of the next unit at the
coarsest undefined granularity, with calendar-correct carrying, and
subtracting one millisecond — equivalently the stored prefix with every
undefined field at its maximum legal value, the day being the calendar
length of the stored month; in particular February 2023 pads to day 28,
February 2024 to day 29, April 2023 to day 30, the bare year 2023 to
December 31 at 23:59:59.999, and a fully defined instance comes back
unchanged. -/
theorem C2_latest_padding :
    (∀ (o : FuzzyDateOptions) (fd : FuzzyDate), FuzzyDate.create o = .ok fd →
      fd.getLatestPaddingOptions = latestSpec fd) ∧
    (FuzzyDate.create (mkOptions 2023 (some 2) none none none none none)).map
      FuzzyDate.getLatestPaddingOptions =
      .ok ⟨.int 2023, .int 2, .int 28, .int 23, .int 59, .int 59, .int 999⟩ ∧
    (FuzzyDate.create (mkOptions 2024 (some 2) none none none none none)).map
      FuzzyDate.getLatestPaddingOptions =
      .ok ⟨.int 2024, .int 2, .int 29, .int 23, .int 59, .int 59, .int 999⟩ ∧
    (FuzzyDate.create (mkOptions 2023 (some 4) none none none none none)).map
      FuzzyDate.getLatestPaddingOptions =
      .ok ⟨.int 2023, .int 4, .int 30, .int 23, .int 59, .int 59, .int 999⟩ ∧
    (FuzzyDate.create (mkOptions 2023 none none none none none none)).map
      FuzzyDate.getLatestPaddingOptions =
      .ok ⟨.int 2023, .int 12, .int 31, .int 23, .int 59, .int 59, .int 999⟩ ∧
    (∀ (o : FuzzyDateOptions) (fd : FuzzyDate), FuzzyDate.create o = .ok fd →
      ∀ v, fd.millisecond = some (.int v) →
        fd.getLatestPaddingOptions =
          ⟨fd.year, fd.month.getD (.int 1), fd.day.getD (.int 1),
            fd.hour.getD (.int 0), fd.minute.getD (.int 0),
            fd.second.getD (.int 0), .int v⟩) := by
  refine ⟨latest_eq_latestSpec, by rfl, by rfl, by rfl, by rfl, ?_⟩
  intro o fd hok v hms
  have hspec := latest_eq_latestSpec o fd hok
  obtain ⟨y, hc⟩ := fd_cases hok
  rcases hc with h | ⟨m, _, h⟩ | ⟨m, d, _, _, h⟩ | ⟨m, d, hh, _, _, _, h⟩ |
    ⟨m, d, hh, mi, _, _, _, _, h⟩ | ⟨m, d, hh, mi, s, _, _, _, _, _, h⟩ |
    ⟨m, d, hh, mi, s, ms, _, _, _, _, _, _, h⟩ <;> subst h <;>
    simp only [mkFuzzy, Option.map_none', Option.map_some',
      Option.some.injEq, JNum.int.injEq] at hms
  · exact absurd hms (by simp)
  · exact absurd hms (by simp)
  · exact absurd hms (by simp)
  · exact absurd hms (by simp)
  · exact absurd hms (by simp)
  · exact absurd hms (by simp)
  · subst hms
    rw [hspec]
    simp [latestSpec, mkFuzzy]

/-- Witness for C2: the universal part applied to February 2023, whose
latest padding ends on day 28. -/
theorem C2_witness :
    FuzzyDate.create (mkOptions 2023 (some 2) none none none none none) =
      .ok (mkFuzzy 2023 (some 2) none none none none none) ∧
    (mkFuzzy 2023 (some 2) none none none none none).getLatestPaddingOptions =
      latestSpec (mkFuzzy 2023 (some 2) none none none none none) := by
  refine ⟨by rfl, ?_⟩
  exact C2_latest_padding.1 (mkOptions 2023 (some 2) none none none none none)
    (mkFuzzy 2023 (some 2) none none none none none) (by rfl)

/-- C5 (amended): on every constructed instance toString emits exactly the
grammar form of the defined prefix — year then hyphen month, hyphen day, T
hour, colon minute, colon second, dot millisecond, with two-digit padding
for month through second and three for milliseconds; the year is the signed
decimal string zero-padded to at least four characters, so a year of four
or more digits passes through unpadded, a negative year of magnitude at
least 100 starts with its sign, while for negative years of smaller
magnitude the zero padding precedes the sign; zero-padding example:
2023-01-01T01:01:01.001. -/
theorem C5_serialization :
    (∀ (o : FuzzyDateOptions) (fd : FuzzyDate), FuzzyDate.create o = .ok fd →
      fd.toString = specToString fd) ∧
    (∀ (o : FuzzyDateOptions) (fd : FuzzyDate) (y : Int),
      FuzzyDate.create o = .ok fd → fd.year = .int y → y ≤ -100 →
      ∃ t, fd.toString = '-' :: t) ∧
    (∀ (o : FuzzyDateOptions) (fd : FuzzyDate) (y : Int),
      FuzzyDate.create o = .ok fd → fd.year = .int y → 1000 ≤ y →
      ∃ t, fd.toString = natChars y.toNat ++ t) ∧
    (FuzzyDate.create
        (mkOptions 2023 (some 1) (some 1) (some 1) (some 1) (some 1) (some 1))).map
      FuzzyDate.toString = .ok ("2023-01-01T01:01:01.001".toList) := by
  refine ⟨?_, ?_, ?_, by rfl⟩
  · intro o fd hok
    obtain ⟨y, hc⟩ := fd_cases hok
    rcases hc with h | ⟨m, _, h⟩ | ⟨m, d, _, _, h⟩ | ⟨m, d, hh, _, _, _, h⟩ |
      ⟨m, d, hh, mi, _, _, _, _, h⟩ | ⟨m, d, hh, mi, s, _, _, _, _, _, h⟩ |
      ⟨m, d, hh, mi, s, ms, _, _, _, _, _, _, h⟩ <;> subst h <;>
      simp [FuzzyDate.toString, specToString, mkFuzzy, List.append_assoc]
  · intro o fd y hok hy hneg
    rw [FuzzyDate.toString, hy]
    have hlt : y < 0 := by omega
    have habs : (100 : Nat) ≤ y.natAbs := by omega
    have hlen : 2 < (natChars y.natAbs).length := natChars_length_ge (by simpa using habs)
    rw [jsNumChars, jsIntChars, if_pos hlt,
      padStart_eq_self (by simp only [List.length_cons]; omega)]
    exact ⟨_, rfl⟩
  · intro o fd y hok hy hge
    rw [FuzzyDate.toString, hy]
    have hlt : ¬ y < 0 := by omega
    have habs : (1000 : Nat) ≤ y.toNat := by omega
    have hlen : 3 < (natChars y.toNat).length := natChars_length_ge (by simpa using habs)
    rw [jsNumChars, jsIntChars, if_neg hlt, padStart_eq_self (by omega)]
    exact ⟨_, rfl⟩

/-- Witness for C5: the grammar form at year 2023 month 5, and the leading
sign at year -500. -/
theorem C5_witness :
    ((mkFuzzy 2023 (some 5) none none none none none).toString =
      specToString (mkFuzzy 2023 (some 5) none none none none none)) ∧
    (∃ t, (mkFuzzy (-500) none none none none none none).toString = '-' :: t) := by
  constructor
  · exact C5_serialization.1 (mkOptions 2023 (some 5) none none none none none)
      (mkFuzzy 2023 (some 5) none none none none none) (by rfl)
  · exact C5_serialization.2.1 (mkOptions (-500) none none none none none none)
      (mkFuzzy (-500) none none none none none none) (-500) (by rfl) rfl (by norm_num)

/-- C5 counterexample: year -50 constructs a valid FuzzyDate, but its string
form is "0-50" — the zero padding is applied to the signed string, so the
output does not start with the sign as the claim states. -/
theorem C5_counterexample :
    FuzzyDate.create (mkOptions (-50) none none none none none none) =
      .ok (mkFuzzy (-50) none none none none none none) ∧
    (mkFuzzy (-50) none none none none none none).toString = "0-50".toList ∧
    (mkFuzzy (-50) none none none none none none).toString.headD ' ' ≠ '-' := by
  exact ⟨rfl, rfl, by decide⟩

theorem digit_no_dash {ds : List Char} (hd : ∀ c ∈ ds, isDigitCh c = true) :
    '-' ∉ ds := fun hm => absurd (hd _ hm) (by decide)

theorem digit_no_t {ds : List Char} (hd : ∀ c ∈ ds, isDigitCh c = true) :
    'T' ∉ ds := fun hm => absurd (hd _ hm) (by decide)

theorem digit_no_colon {ds : List Char} (hd : ∀ c ∈ ds, isDigitCh c = true) :
    ':' ∉ ds := fun hm => absurd (hd _ hm) (by decide)

theorem digit_no_dot {ds : List Char} (hd : ∀ c ∈ ds, isDigitCh c = true) :
    '.' ∉ ds := fun hm => absurd (hd _ hm) (by decide)

theorem jsParseInt_digits {ds : List Char} (hne : ds ≠ [])
    (hd : ∀ c ∈ ds, isDigitCh c = true) :
    jsParseInt ds = .int (digitsVal ds) := by
  cases ds with
  | nil => exact absurd rfl hne
  | cons c t =>
    have hc : isDigitCh c = true := hd c (List.mem_cons_self _ _)
    have hdash : ¬ c = '-' := (isDigitCh_sep hc).1
    rw [jsParseInt, if_neg hdash, takeWhile_all hd]
    simp

theorem jsParseInt_neg_digits {ds : List Char} (hne : ds ≠ [])
    (hd : ∀ c ∈ ds, isDigitCh c = true) :
    jsParseInt ('-' :: ds) = .int (-(digitsVal ds : Int)) := by
  rw [jsParseInt, if_pos rfl, takeWhile_all hd]
  cases ds with
  | nil => exact absurd rfl hne
  | cons c t => simp

theorem parseOptComp_digits {ds : List Char} (hne : ds ≠ [])
    (hd : ∀ c ∈ ds, isDigitCh c = true) :
    parseOptComp (some ds) = .ok (some (.int (digitsVal ds))) := by
  rw [parseOptComp, jsParseInt_digits hne hd]

theorem matchFDS_shape (sign : Bool) (tail : List Char) {ds : List Char} (hne : ds ≠ [])
    (hd : ∀ c ∈ ds, isDigitCh c = true)
    (hhead : ∀ a r, tail = a :: r → isDigitCh a = false)
    (htail : matchMonthPart tail = true) :
    matchFDS ((if sign then ['-'] else []) ++ ds ++ tail) = true := by
  rw [matchFDS]
  have hbody : stripNeg ((if sign then ['-'] else []) ++ ds ++ tail) = ds ++ tail := by
    cases sign
    · simp only [if_neg (Bool.false_ne_true), List.nil_append]
      cases ds with
      | nil => exact absurd rfl hne
      | cons c t =>
        have hc : isDigitCh c = true := hd c (List.mem_cons_self _ _)
        rw [List.cons_append, stripNeg, if_neg (isDigitCh_sep hc).1]
    · rw [if_pos rfl, List.singleton_append]
      rfl
  rw [hbody]
  have htake : (ds ++ tail).takeWhile isDigitCh = ds := by
    cases tail with
    | nil => rw [List.append_nil, takeWhile_all hd]
    | cons a r => exact takeWhile_append_stop hd (hhead a r rfl) r
  have hdrop : (ds ++ tail).dropWhile isDigitCh = tail := by
    cases tail with
    | nil => rw [List.append_nil, dropWhile_all hd]
    | cons a r => exact dropWhile_append_stop hd (hhead a r rfl) r
  rw [htake, hdrop, htail]
  cases ds with
  | nil => exact absurd rfl hne
  | cons c t => rfl

theorem fromString_L1 (sign : Bool) {ds : List Char} (hne : ds ≠ [])
    (hd : ∀ c ∈ ds, isDigitCh c = true) :
    FuzzyDate.fromString ((if sign then ['-'] else []) ++ ds) =
      FuzzyDate.create ⟨if sign then .int (-(digitsVal ds : Int)) else .int (digitsVal ds),
        none, none, none, none, none, none⟩ := by
  have hmatch : matchFDS ((if sign then ['-'] else []) ++ ds) = true := by
    have := matchFDS_shape sign [] hne hd
      (fun a r hh => absurd hh (by simp)) rfl
    simpa using this
  rw [FuzzyDate.fromString, if_neg (by rw [hmatch]; exact fun hc => hc rfl)]
  cases sign
  · simp only [if_neg (Bool.false_ne_true), List.nil_append]
    have hT : splitCh 'T' ds = [ds] := splitCh_not_mem (digit_no_t hd)
    have hDash : splitCh '-' ds = [ds] := splitCh_not_mem (digit_no_dash hd)
    have hNeg : startsWithNeg ds = false := by
      cases ds with
      | nil => exact absurd rfl hne
      | cons c t =>
        rw [startsWithNeg]
        simp [(isDigitCh_sep (hd c (List.mem_cons_self _ _))).1]
    rw [hT]
    simp only [List.headD_cons]
    rw [hNeg, hDash]
    simp only [Bool.false_eq_true, if_false]
    rw [if_neg (by simp)]
    simp only [List.headD_cons]
    rw [jsParseInt_digits hne hd]
    simp [parseOptComp, parseTimeBlock]
  · rw [if_pos rfl, List.singleton_append]
    have hT : splitCh 'T' ('-' :: ds) = ['-' :: ds] := by
      refine splitCh_not_mem ?_
      intro hm
      rcases List.mem_cons.mp hm with h | h
      · exact absurd h (by decide)
      · exact digit_no_t hd h
    have hDash : splitCh '-' ('-' :: ds) = [] :: [ds] := by
      have : splitCh '-' (([] : List Char) ++ '-' :: ds) = [] :: splitCh '-' ds :=
        splitCh_append (by simp) ds
      simpa [splitCh_not_mem (digit_no_dash hd)] using this
    rw [hT]
    simp only [List.headD_cons]
    rw [show startsWithNeg ('-' :: ds) = true from rfl, hDash]
    simp only [if_true]
    rw [show ([([] : List Char), ds][1]?.getD []) = ds from rfl]
    rw [show ((([] : List Char) :: [ds]).drop 2) = [] from rfl]
    rw [if_neg (by simp)]
    simp only [List.headD_cons]
    rw [jsParseInt_neg_digits hne hd]
    simp [parseOptComp, parseTimeBlock]

theorem matchTwoDigitsThen_chunk (next : List Char → Bool) {t : List Char}
    (hl : t.length = 2) (hd : ∀ c ∈ t, isDigitCh c = true) (rest : List Char) :
    matchTwoDigitsThen next (t ++ rest) = next rest := by
  obtain ⟨a, b, rfl⟩ := List.length_eq_two.mp hl
  simp [matchTwoDigitsThen, hd a (by simp), hd b (by simp)]

theorem fromString_L2 (sign : Bool) {ds : List Char} (mm : List Char) (hne : ds ≠ [])
    (hd : ∀ c ∈ ds, isDigitCh c = true)
    (hml : mm.length = 2) (hmd : ∀ c ∈ mm, isDigitCh c = true) :
    FuzzyDate.fromString ((if sign then ['-'] else []) ++ ds ++ '-' :: mm) =
      FuzzyDate.create ⟨if sign then .int (-(digitsVal ds : Int)) else .int (digitsVal ds),
        some (.int (digitsVal mm)), none, none, none, none, none⟩ := by
  have hmne : mm ≠ [] := by
    intro hh; rw [hh] at hml; exact absurd hml (by decide)
  have hmatch : matchFDS ((if sign then ['-'] else []) ++ ds ++ '-' :: mm) = true := by
    refine matchFDS_shape sign ('-' :: mm) hne hd (fun a r hh => by cases hh; decide) ?_
    rw [matchMonthPart]
    simp only [decide_True, Bool.true_and]
    have := matchTwoDigitsThen_chunk matchDayPart hml hmd []
    rw [List.append_nil] at this
    rw [this]
    rfl
  rw [FuzzyDate.fromString, if_neg (by rw [hmatch]; exact fun hc => hc rfl)]
  have hTds : 'T' ∉ ds := digit_no_t hd
  have hTmm : 'T' ∉ mm := digit_no_t hmd
  cases sign
  · simp only [if_neg (Bool.false_ne_true), List.nil_append]
    have hT : splitCh 'T' (ds ++ '-' :: mm) = [ds ++ '-' :: mm] :=
      splitCh_not_mem (by
        simp only [List.mem_append, List.mem_cons]
        rintro (h | h | h)
        · exact hTds h
        · exact absurd h (by decide)
        · exact hTmm h)
    have hDash : splitCh '-' (ds ++ '-' :: mm) = [ds, mm] := by
      rw [splitCh_append (digit_no_dash hd) mm, splitCh_not_mem (digit_no_dash hmd)]
    have hNeg : startsWithNeg (ds ++ '-' :: mm) = false := by
      cases ds with
      | nil => exact absurd rfl hne
      | cons c t =>
        rw [List.cons_append, startsWithNeg]
        simp [(isDigitCh_sep (hd c (List.mem_cons_self _ _))).1]
    rw [hT]
    simp only [List.headD_cons]
    rw [hNeg, hDash]
    simp only [Bool.false_eq_true, if_false]
    rw [if_neg (by simp)]
    simp only [List.headD_cons]
    rw [jsParseInt_digits hne hd]
    rw [show ([ds, mm][1]?) = some mm from rfl, parseOptComp_digits hmne hmd]
    simp [parseOptComp, parseTimeBlock]
  · rw [if_pos rfl, List.append_assoc, List.singleton_append]
    have hT : splitCh 'T' ('-' :: (ds ++ '-' :: mm)) = ['-' :: (ds ++ '-' :: mm)] :=
      splitCh_not_mem (by
        simp only [List.mem_cons, List.mem_append, List.mem_cons]
        rintro (h | h | h | h)
        · exact absurd h (by decide)
        · exact hTds h
        · exact absurd h (by decide)
        · exact hTmm h)
    have hDash : splitCh '-' ('-' :: (ds ++ '-' :: mm)) = [] :: [ds, mm] := by
      have hmain : splitCh '-' (ds ++ '-' :: mm) = [ds, mm] := by
        rw [splitCh_append (digit_no_dash hd) mm, splitCh_not_mem (digit_no_dash hmd)]
      have h0 : splitCh '-' (([] : List Char) ++ '-' :: (ds ++ '-' :: mm)) =
          [] :: splitCh '-' (ds ++ '-' :: mm) := splitCh_append (by simp) _
      simpa [hmain] using h0
    rw [hT]
    simp only [List.headD_cons]
    rw [show startsWithNeg ('-' :: (ds ++ '-' :: mm)) = true from rfl, hDash]
    simp only [if_true]
    rw [show (([([] : List Char), ds, mm])[1]?.getD []) = ds from rfl]
    rw [show ((([] : List Char) :: [ds, mm]).drop 2) = [mm] from rfl]
    rw [if_neg (by simp)]
    simp only [List.headD_cons]
    rw [jsParseInt_neg_digits hne hd]
    rw [show (['-' :: ds, mm][1]?) = some mm from rfl, parseOptComp_digits hmne hmd]
    simp [parseOptComp, parseTimeBlock]

theorem fromString_L3 (sign : Bool) {ds : List Char} (mm dd : List Char) (hne : ds ≠ [])
    (hd : ∀ c ∈ ds, isDigitCh c = true)
    (hml : mm.length = 2) (hmd : ∀ c ∈ mm, isDigitCh c = true)
    (hdl : dd.length = 2) (hdd : ∀ c ∈ dd, isDigitCh c = true) :
    FuzzyDate.fromString
        ((if sign then ['-'] else []) ++ (ds ++ '-' :: (mm ++ '-' :: dd))) =
      FuzzyDate.create ⟨if sign then .int (-(digitsVal ds : Int)) else .int (digitsVal ds),
        some (.int (digitsVal mm)), some (.int (digitsVal dd)),
        none, none, none, none⟩ := by
  have hmne : mm ≠ [] := by
    intro hh; rw [hh] at hml; exact absurd hml (by decide)
  have hdne : dd ≠ [] := by
    intro hh; rw [hh] at hdl; exact absurd hdl (by decide)
  have hmatch : matchFDS
      ((if sign then ['-'] else []) ++ (ds ++ '-' :: (mm ++ '-' :: dd))) = true := by
    have hshape := matchFDS_shape sign ('-' :: (mm ++ '-' :: dd))
      hne hd (fun a r hh => by cases hh; decide) (by
        rw [matchMonthPart]
        simp only [decide_True, Bool.true_and]
        rw [matchTwoDigitsThen_chunk _ hml hmd ('-' :: dd), matchDayPart]
        simp only [decide_True, Bool.true_and]
        have := matchTwoDigitsThen_chunk matchHourPart hdl hdd []
        rw [List.append_nil] at this
        rw [this]
        rfl)
    simpa [List.append_assoc] using hshape
  rw [FuzzyDate.fromString, if_neg (by rw [hmatch]; exact fun hc => hc rfl)]
  have hDashMain : splitCh '-' (ds ++ '-' :: (mm ++ '-' :: dd)) = [ds, mm, dd] := by
    rw [splitCh_append (digit_no_dash hd) (mm ++ '-' :: dd),
      splitCh_append (digit_no_dash hmd) dd, splitCh_not_mem (digit_no_dash hdd)]
  have hTnot : 'T' ∉ ds ++ '-' :: (mm ++ '-' :: dd) := by
    simp only [List.mem_append, List.mem_cons]
    rintro (h | h | h | h | h)
    · exact digit_no_t hd h
    · exact absurd h (by decide)
    · exact digit_no_t hmd h
    · exact absurd h (by decide)
    · exact digit_no_t hdd h
  cases sign
  · simp only [if_neg (Bool.false_ne_true), List.nil_append]
    have hT : splitCh 'T' (ds ++ '-' :: (mm ++ '-' :: dd)) =
        [ds ++ '-' :: (mm ++ '-' :: dd)] := splitCh_not_mem hTnot
    have hNeg : startsWithNeg (ds ++ '-' :: (mm ++ '-' :: dd)) = false := by
      cases ds with
      | nil => exact absurd rfl hne
      | cons c t =>
        rw [List.cons_append, startsWithNeg]
        simp [(isDigitCh_sep (hd c (List.mem_cons_self _ _))).1]
    rw [hT]
    simp only [List.headD_cons]
    rw [hNeg, hDashMain]
    simp only [Bool.false_eq_true, if_false]
    rw [if_neg (by simp)]
    simp only [List.headD_cons]
    rw [jsParseInt_digits hne hd]
    rw [show ([ds, mm, dd][1]?) = some mm from rfl, parseOptComp_digits hmne hmd]
    rw [show ([ds, mm, dd][2]?) = some dd from rfl, parseOptComp_digits hdne hdd]
    simp [parseTimeBlock]
  · rw [if_pos rfl, List.singleton_append]
    have hT : splitCh 'T' ('-' :: (ds ++ '-' :: (mm ++ '-' :: dd))) =
        ['-' :: (ds ++ '-' :: (mm ++ '-' :: dd))] := by
      refine splitCh_not_mem ?_
      intro hm
      rcases List.mem_cons.mp hm with h | h
      · exact absurd h (by decide)
      · exact hTnot h
    have hDash : splitCh '-' ('-' :: (ds ++ '-' :: (mm ++ '-' :: dd))) =
        [] :: [ds, mm, dd] := by
      have h0 : splitCh '-' (([] : List Char) ++ '-' :: (ds ++ '-' :: (mm ++ '-' :: dd))) =
          [] :: splitCh '-' (ds ++ '-' :: (mm ++ '-' :: dd)) := splitCh_append (by simp) _
      simpa [hDashMain] using h0
    rw [hT]
    simp only [List.headD_cons]
    rw [show startsWithNeg ('-' :: (ds ++ '-' :: (mm ++ '-' :: dd))) = true from rfl,
      hDash]
    simp only [if_true]
    rw [show (([([] : List Char), ds, mm, dd])[1]?.getD []) = ds from rfl]
    rw [show ((([] : List Char) :: [ds, mm, dd]).drop 2) = [mm, dd] from rfl]
    rw [if_neg (by simp)]
    simp only [List.headD_cons]
    rw [jsParseInt_neg_digits hne hd]
    rw [show (['-' :: ds, mm, dd][1]?) = some mm from rfl, parseOptComp_digits hmne hmd]
    rw [show (['-' :: ds, mm, dd][2]?) = some dd from rfl, parseOptComp_digits hdne hdd]
    simp [parseTimeBlock]

theorem fromString_time (sign : Bool) {ds : List Char} (mm dd tt : List Char)
    (hne : ds ≠ [])
    (hd : ∀ c ∈ ds, isDigitCh c = true)
    (hml : mm.length = 2) (hmd : ∀ c ∈ mm, isDigitCh c = true)
    (hdl : dd.length = 2) (hdd : ∀ c ∈ dd, isDigitCh c = true)
    (httT : 'T' ∉ tt) (hmt : matchHourPart ('T' :: tt) = true) :
    FuzzyDate.fromString
        ((if sign then ['-'] else []) ++
          (ds ++ '-' :: (mm ++ '-' :: (dd ++ 'T' :: tt)))) =
      parseTimeBlock (if sign then -(digitsVal ds : Int) else (digitsVal ds : Int))
        (some (.int (digitsVal mm))) (some (.int (digitsVal dd))) (some tt) := by
  have hmne : mm ≠ [] := by
    intro hh; rw [hh] at hml; exact absurd hml (by decide)
  have hdne : dd ≠ [] := by
    intro hh; rw [hh] at hdl; exact absurd hdl (by decide)
  have hmatch : matchFDS ((if sign then ['-'] else []) ++
      (ds ++ '-' :: (mm ++ '-' :: (dd ++ 'T' :: tt)))) = true := by
    have hshape := matchFDS_shape sign ('-' :: (mm ++ '-' :: (dd ++ 'T' :: tt)))
      hne hd (fun a r hh => by cases hh; decide) (by
        rw [matchMonthPart]
        simp only [decide_True, Bool.true_and]
        rw [matchTwoDigitsThen_chunk _ hml hmd ('-' :: (dd ++ 'T' :: tt)), matchDayPart]
        simp only [decide_True, Bool.true_and]
        rw [matchTwoDigitsThen_chunk _ hdl hdd ('T' :: tt)]
        exact hmt)
    simpa [List.append_assoc] using hshape
  rw [FuzzyDate.fromString, if_neg (by rw [hmatch]; exact fun hc => hc rfl)]
  have hDashMain : splitCh '-' (ds ++ '-' :: (mm ++ '-' :: dd)) = [ds, mm, dd] := by
    rw [splitCh_append (digit_no_dash hd) (mm ++ '-' :: dd),
      splitCh_append (digit_no_dash hmd) dd, splitCh_not_mem (digit_no_dash hdd)]
  have hTnot : 'T' ∉ ds ++ '-' :: (mm ++ '-' :: dd) := by
    simp only [List.mem_append, List.mem_cons]
    rintro (h | h | h | h | h)
    · exact digit_no_t hd h
    · exact absurd h (by decide)
    · exact digit_no_t hmd h
    · exact absurd h (by decide)
    · exact digit_no_t hdd h
  cases sign
  · simp only [if_neg (Bool.false_ne_true), List.nil_append]
    have hT : splitCh 'T' (ds ++ '-' :: (mm ++ '-' :: (dd ++ 'T' :: tt))) =
        [ds ++ '-' :: (mm ++ '-' :: dd), tt] := by
      rw [show ds ++ '-' :: (mm ++ '-' :: (dd ++ 'T' :: tt)) =
          (ds ++ '-' :: (mm ++ '-' :: dd)) ++ 'T' :: tt by
            simp [List.append_assoc]]
      rw [splitCh_append hTnot tt, splitCh_not_mem httT]
    have hNeg : startsWithNeg (ds ++ '-' :: (mm ++ '-' :: dd)) = false := by
      cases ds with
      | nil => exact absurd rfl hne
      | cons c t =>
        rw [List.cons_append, startsWithNeg]
        simp [(isDigitCh_sep (hd c (List.mem_cons_self _ _))).1]
    rw [hT]
    simp only [List.headD_cons]
    rw [hNeg, hDashMain]
    simp only [Bool.false_eq_true, if_false]
    rw [if_neg (by simp)]
    simp only [List.headD_cons]
    rw [jsParseInt_digits hne hd]
    rw [show ([ds, mm, dd][1]?) = some mm from rfl, parseOptComp_digits hmne hmd]
    rw [show ([ds, mm, dd][2]?) = some dd from rfl, parseOptComp_digits hdne hdd]
    rfl
  · rw [if_pos rfl, List.singleton_append]
    have hT : splitCh 'T' ('-' :: (ds ++ '-' :: (mm ++ '-' :: (dd ++ 'T' :: tt)))) =
        ['-' :: (ds ++ '-' :: (mm ++ '-' :: dd)), tt] := by
      rw [show ('-' :: (ds ++ '-' :: (mm ++ '-' :: (dd ++ 'T' :: tt)))) =
          ('-' :: (ds ++ '-' :: (mm ++ '-' :: dd))) ++ 'T' :: tt by
            simp [List.append_assoc]]
      refine Eq.trans (splitCh_append ?_ tt) ?_
      · intro hm
        rcases List.mem_cons.mp hm with h | h
        · exact absurd h (by decide)
        · exact hTnot h
      · rw [splitCh_not_mem httT]
    have hDash : splitCh '-' ('-' :: (ds ++ '-' :: (mm ++ '-' :: dd))) =
        [] :: [ds, mm, dd] := by
      have h0 : splitCh '-' (([] : List Char) ++ '-' :: (ds ++ '-' :: (mm ++ '-' :: dd))) =
          [] :: splitCh '-' (ds ++ '-' :: (mm ++ '-' :: dd)) := splitCh_append (by simp) _
      simpa [hDashMain] using h0
    rw [hT]
    simp only [List.headD_cons]
    rw [show startsWithNeg ('-' :: (ds ++ '-' :: (mm ++ '-' :: dd))) = true from rfl,
      hDash]
    simp only [if_true]
    rw [show (([([] : List Char), ds, mm, dd])[1]?.getD []) = ds from rfl]
    rw [show ((([] : List Char) :: [ds, mm, dd]).drop 2) = [mm, dd] from rfl]
    rw [if_neg (by simp)]
    simp only [List.headD_cons]
    rw [jsParseInt_neg_digits hne hd]
    rw [show (['-' :: ds, mm, dd][1]?) = some mm from rfl, parseOptComp_digits hmne hmd]
    rw [show (['-' :: ds, mm, dd][2]?) = some dd from rfl, parseOptComp_digits hdne hdd]
    rfl

theorem parseTimeBlock_hour {y : Int} {mo d : Option JNum} {hh : List Char}
    (hhl : hh.length = 2) (hhd : ∀ c ∈ hh, isDigitCh c = true) :
    parseTimeBlock y mo d (some hh) =
      FuzzyDate.create ⟨.int y, mo, d, some (.int (digitsVal hh)),
        none, none, none⟩ := by
  have hhne : hh ≠ [] := by
    intro hx; rw [hx] at hhl; exact absurd hhl (by decide)
  rw [parseTimeBlock]
  rw [if_neg (by
    cases hh with
    | nil => exact absurd rfl hhne
    | cons c t => simp [List.isEmpty])]
  rw [splitCh_not_mem (digit_no_colon hhd)]
  rw [if_neg (by simp)]
  simp only [List.headD_cons]
  rw [jsParseInt_digits hhne hhd]
  rfl

theorem parseTimeBlock_minute {y : Int} {mo d : Option JNum} {hh mi2 : List Char}
    (hhl : hh.length = 2) (hhd : ∀ c ∈ hh, isDigitCh c = true)
    (hml : mi2.length = 2) (hmd : ∀ c ∈ mi2, isDigitCh c = true) :
    parseTimeBlock y mo d (some (hh ++ ':' :: mi2)) =
      FuzzyDate.create ⟨.int y, mo, d, some (.int (digitsVal hh)),
        some (.int (digitsVal mi2)), none, none⟩ := by
  have hhne : hh ≠ [] := by
    intro hx; rw [hx] at hhl; exact absurd hhl (by decide)
  have hmne : mi2 ≠ [] := by
    intro hx; rw [hx] at hml; exact absurd hml (by decide)
  rw [parseTimeBlock]
  rw [if_neg (by
    cases hh with
    | nil => exact absurd rfl hhne
    | cons c t => simp [List.isEmpty])]
  rw [splitCh_append (digit_no_colon hhd) mi2, splitCh_not_mem (digit_no_colon hmd)]
  rw [if_neg (by simp)]
  simp only [List.headD_cons]
  rw [jsParseInt_digits hhne hhd]
  rw [show ([hh, mi2][1]?) = some mi2 from rfl, parseOptComp_digits hmne hmd]
  rfl

theorem parseTimeBlock_second {y : Int} {mo d : Option JNum} {hh mi2 ss : List Char}
    (hhl : hh.length = 2) (hhd : ∀ c ∈ hh, isDigitCh c = true)
    (hml : mi2.length = 2) (hmd : ∀ c ∈ mi2, isDigitCh c = true)
    (hsl : ss.length = 2) (hsd : ∀ c ∈ ss, isDigitCh c = true) :
    parseTimeBlock y mo d (some (hh ++ ':' :: (mi2 ++ ':' :: ss))) =
      FuzzyDate.create ⟨.int y, mo, d, some (.int (digitsVal hh)),
        some (.int (digitsVal mi2)), some (.int (digitsVal ss)), none⟩ := by
  have hhne : hh ≠ [] := by
    intro hx; rw [hx] at hhl; exact absurd hhl (by decide)
  have hmne : mi2 ≠ [] := by
    intro hx; rw [hx] at hml; exact absurd hml (by decide)
  have hsne : ss ≠ [] := by
    intro hx; rw [hx] at hsl; exact absurd hsl (by decide)
  rw [parseTimeBlock]
  rw [if_neg (by
    cases hh with
    | nil => exact absurd rfl hhne
    | cons c t => simp [List.isEmpty])]
  rw [splitCh_append (digit_no_colon hhd) (mi2 ++ ':' :: ss),
    splitCh_append (digit_no_colon hmd) ss, splitCh_not_mem (digit_no_colon hsd)]
  rw [if_neg (by simp)]
  simp only [List.headD_cons]
  rw [jsParseInt_digits hhne hhd]
  rw [show ([hh, mi2, ss][1]?) = some mi2 from rfl, parseOptComp_digits hmne hmd]
  rw [show ([hh, mi2, ss][2]?) = some ss from rfl]
  dsimp only
  rw [parseSecondBlock]
  rw [splitCh_not_mem (digit_no_dot hsd)]
  simp only [List.headD_cons]
  rw [jsParseInt_digits hsne hsd]
  rfl

theorem parseTimeBlock_ms {y : Int} {mo d : Option JNum} {hh mi2 ss ms3 : List Char}
    (hhl : hh.length = 2) (hhd : ∀ c ∈ hh, isDigitCh c = true)
    (hml : mi2.length = 2) (hmd : ∀ c ∈ mi2, isDigitCh c = true)
    (hsl : ss.length = 2) (hsd : ∀ c ∈ ss, isDigitCh c = true)
    (hms3l : ms3.length = 3) (hms3d : ∀ c ∈ ms3, isDigitCh c = true) :
    parseTimeBlock y mo d (some (hh ++ ':' :: (mi2 ++ ':' :: (ss ++ '.' :: ms3)))) =
      FuzzyDate.create ⟨.int y, mo, d, some (.int (digitsVal hh)),
        some (.int (digitsVal mi2)), some (.int (digitsVal ss)),
        some (.int (digitsVal ms3))⟩ := by
  have hhne : hh ≠ [] := by
    intro hx; rw [hx] at hhl; exact absurd hhl (by decide)
  have hmne : mi2 ≠ [] := by
    intro hx; rw [hx] at hml; exact absurd hml (by decide)
  have hsne : ss ≠ [] := by
    intro hx; rw [hx] at hsl; exact absurd hsl (by decide)
  have hms3ne : ms3 ≠ [] := by
    intro hx; rw [hx] at hms3l; exact absurd hms3l (by decide)
  have hscolon : ':' ∉ ss ++ '.' :: ms3 := by
    simp only [List.mem_append, List.mem_cons]
    rintro (h | h | h)
    · exact digit_no_colon hsd h
    · exact absurd h (by decide)
    · exact digit_no_colon hms3d h
  rw [parseTimeBlock]
  rw [if_neg (by
    cases hh with
    | nil => exact absurd rfl hhne
    | cons c t => simp [List.isEmpty])]
  rw [splitCh_append (digit_no_colon hhd) (mi2 ++ ':' :: (ss ++ '.' :: ms3)),
    splitCh_append (digit_no_colon hmd) (ss ++ '.' :: ms3), splitCh_not_mem hscolon]
  rw [if_neg (by simp)]
  simp only [List.headD_cons]
  rw [jsParseInt_digits hhne hhd]
  rw [show ([hh, mi2, ss ++ '.' :: ms3][1]?) = some mi2 from rfl,
    parseOptComp_digits hmne hmd]
  rw [show ([hh, mi2, ss ++ '.' :: ms3][2]?) = some (ss ++ '.' :: ms3) from rfl]
  dsimp only
  rw [parseSecondBlock]
  rw [splitCh_append (digit_no_dot hsd) ms3, splitCh_not_mem (digit_no_dot hms3d)]
  simp only [List.headD_cons]
  rw [jsParseInt_digits hsne hsd]
  rw [show ([ss, ms3][1]?) = some ms3 from rfl]
  dsimp only
  rw [if_neg (by
    cases ms3 with
    | nil => exact absurd rfl hms3ne
    | cons c t => simp [List.isEmpty])]
  rw [jsParseInt_digits hms3ne hms3d]

theorem dropWhile_head_false {p : Char → Bool} :
    ∀ {l : List Char} {a : Char} {r : List Char},
      l.dropWhile p = a :: r → p a = false := by
  intro l
  induction l with
  | nil => intro a r h; simp at h
  | cons c t ih =>
    intro a r h
    rw [List.dropWhile_cons] at h
    by_cases hc : p c = true
    · rw [if_pos hc] at h; exact ih h
    · rw [if_neg hc] at h
      injection h with h1 _
      subst h1
      exact Bool.eq_false_iff.mpr hc

theorem matchTwoDigitsThen_inv {next : List Char → Bool} {t : List Char}
    (h : matchTwoDigitsThen next t = true) :
    ∃ a b rest, t = a :: b :: rest ∧ isDigitCh a = true ∧ isDigitCh b = true ∧
      next rest = true := by
  match t, h with
  | a :: b :: rest, h =>
    simp only [matchTwoDigitsThen, Bool.and_eq_true] at h
    exact ⟨a, b, rest, rfl, h.1.1, h.1.2, h.2⟩

theorem matchSepPart_inv {t : List Char} {sep : Char} {next : List Char → Bool}
    (h : (match t with
          | [] => true
          | c :: rest => decide (c = sep) && matchTwoDigitsThen next rest) = true) :
    t = [] ∨ ∃ a b rest, t = sep :: a :: b :: rest ∧ isDigitCh a = true ∧
      isDigitCh b = true ∧ next rest = true := by
  match t, h with
  | [], _ => exact Or.inl rfl
  | c :: r, h =>
    simp only [Bool.and_eq_true, decide_eq_true_eq] at h
    obtain ⟨rfl, h2⟩ := h
    obtain ⟨a, b, rest, rfl, ha, hb, hn⟩ := matchTwoDigitsThen_inv h2
    exact Or.inr ⟨a, b, rest, rfl, ha, hb, hn⟩

theorem matchMsPart_inv {t : List Char} (h : matchMsPart t = true) :
    t = [] ∨ ∃ a b c, t = '.' :: [a, b, c] ∧ isDigitCh a = true ∧
      isDigitCh b = true ∧ isDigitCh c = true := by
  match t, h with
  | [], _ => exact Or.inl rfl
  | c :: r, h =>
    simp only [matchMsPart, Bool.and_eq_true, decide_eq_true_eq] at h
    obtain ⟨rfl, h2⟩ := h
    match r, h2 with
    | [a, b, c], h2 =>
      simp only [matchThreeDigits, Bool.and_eq_true] at h2
      exact Or.inr ⟨a, b, c, rfl, h2.1.1, h2.1.2, h2.2⟩

theorem matchFDS_inv {s : List Char} (h : matchFDS s = true) :
    ∃ (sign : Bool) (ds tail : List Char),
      s = (if sign then ['-'] else []) ++ (ds ++ tail) ∧ ds ≠ [] ∧
      (∀ c ∈ ds, isDigitCh c = true) ∧ matchMonthPart tail = true := by
  rw [matchFDS] at h
  simp only [Bool.and_eq_true, Bool.not_eq_true'] at h
  obtain ⟨hne, hmp⟩ := h
  have hsplit : (stripNeg s).takeWhile isDigitCh ++ (stripNeg s).dropWhile isDigitCh =
      stripNeg s := List.takeWhile_append_dropWhile _ _
  have hdsne : (stripNeg s).takeWhile isDigitCh ≠ [] := by
    intro hx
    rw [hx] at hne
    exact absurd hne (by simp)
  have hdig : ∀ c ∈ (stripNeg s).takeWhile isDigitCh, isDigitCh c = true :=
    fun c hc => List.mem_takeWhile_imp hc
  cases s with
  | nil => exact absurd (by rfl) hdsne
  | cons c t =>
    by_cases hc : c = '-'
    · subst hc
      refine ⟨true, (stripNeg ('-' :: t)).takeWhile isDigitCh,
        (stripNeg ('-' :: t)).dropWhile isDigitCh, ?_, hdsne, hdig, hmp⟩
      rw [hsplit]
      rfl
    · refine ⟨false, (stripNeg (c :: t)).takeWhile isDigitCh,
        (stripNeg (c :: t)).dropWhile isDigitCh, ?_, hdsne, hdig, hmp⟩
      rw [hsplit]
      simp only [Bool.false_eq_true, if_false, List.nil_append]
      simp [stripNeg, hc]

theorem matchTwoDigitsThen_pair {next : List Char → Bool} {a b : Char}
    (ha : isDigitCh a = true) (hb : isDigitCh b = true) (rest : List Char) :
    matchTwoDigitsThen next (a :: b :: rest) = next rest := by
  simp [matchTwoDigitsThen, ha, hb]

theorem pair_digits {a b : Char} (ha : isDigitCh a = true) (hb : isDigitCh b = true) :
    ∀ c ∈ [a, b], isDigitCh c = true := by
  intro c hc
  rcases List.mem_cons.mp hc with rfl | hc
  · exact ha
  · rcases List.mem_cons.mp hc with rfl | hc
    · exact hb
    · simp at hc

theorem triple_digits {a b c : Char} (ha : isDigitCh a = true)
    (hb : isDigitCh b = true) (hc : isDigitCh c = true) :
    ∀ x ∈ [a, b, c], isDigitCh x = true := by
  intro x hx
  rcases List.mem_cons.mp hx with rfl | hx
  · exact ha
  · rcases List.mem_cons.mp hx with rfl | hx
    · exact hb
    · rcases List.mem_cons.mp hx with rfl | hx
      · exact hc
      · simp at hx

theorem no_t_mixed {l : List Char}
    (h : ∀ c ∈ l, isDigitCh c = true ∨ c = ':' ∨ c = '.') : 'T' ∉ l := by
  intro hm
  rcases h 'T' hm with hx | hx | hx
  · exact absurd hx (by decide)
  · exact absurd hx (by decide)
  · exact absurd hx (by decide)

theorem fromString_delegates {s : List Char} (h : matchFDS s = true) :
    ∃ o, FuzzyDate.fromString s = FuzzyDate.create o := by
  obtain ⟨sign, ds, tail, rfl, hne, hd, hmp⟩ := matchFDS_inv h
  rcases matchSepPart_inv hmp with rfl | ⟨a, b, rest, rfl, ha, hb, hdp⟩
  · exact ⟨_, by rw [List.append_nil]; exact fromString_L1 sign hne hd⟩
  · rcases matchSepPart_inv hdp with rfl | ⟨a2, b2, rest2, rfl, ha2, hb2, hhp⟩
    · have := fromString_L2 sign [a, b] hne hd rfl
        (pair_digits ha hb)
      rw [List.append_assoc] at this
      exact ⟨_, this⟩
    · rcases matchSepPart_inv hhp with rfl | ⟨a3, b3, rest3, rfl, ha3, hb3, hmip⟩
      · exact ⟨_, fromString_L3 sign [a, b] [a2, b2] hne hd rfl
          (pair_digits ha hb) rfl (pair_digits ha2 hb2)⟩
      · rcases matchSepPart_inv hmip with rfl | ⟨a4, b4, rest4, rfl, ha4, hb4, hsp⟩
        · have hmt : matchHourPart ('T' :: ([a3, b3] : List Char)) = true := by
            rw [matchHourPart]
            simp only [decide_True, Bool.true_and]
            rw [matchTwoDigitsThen_pair ha3 hb3]
            rfl
          have := fromString_time sign [a, b] [a2, b2] [a3, b3] hne hd rfl
            (pair_digits ha hb) rfl (pair_digits ha2 hb2)
            (digit_no_t (pair_digits ha3 hb3)) hmt
          rw [parseTimeBlock_hour (by simp) (pair_digits ha3 hb3)] at this
          exact ⟨_, this⟩
        · rcases matchSepPart_inv hsp with rfl | ⟨a5, b5, rest5, rfl, ha5, hb5, hmsp⟩
          · have hmt : matchHourPart
                ('T' :: (([a3, b3] : List Char) ++ ':' :: [a4, b4])) = true := by
              rw [matchHourPart]
              simp only [decide_True, Bool.true_and]
              rw [matchTwoDigitsThen_chunk _ (by simp) (pair_digits ha3 hb3)]
              rw [matchMinPart]
              simp only [decide_True, Bool.true_and]
              rw [matchTwoDigitsThen_pair ha4 hb4]
              rfl
            have httT : 'T' ∉ ([a3, b3] : List Char) ++ ':' :: [a4, b4] := by
              refine no_t_mixed ?_
              intro c hc
              rcases List.mem_append.mp hc with h1 | h1
              · exact Or.inl (pair_digits ha3 hb3 c h1)
              · rcases List.mem_cons.mp h1 with rfl | h1
                · exact Or.inr (Or.inl rfl)
                · exact Or.inl (pair_digits ha4 hb4 c h1)
            have := fromString_time sign [a, b] [a2, b2]
              ([a3, b3] ++ ':' :: [a4, b4]) hne hd rfl
              (pair_digits ha hb) rfl (pair_digits ha2 hb2) httT hmt
            rw [parseTimeBlock_minute (by simp) (pair_digits ha3 hb3) (by simp)
              (pair_digits ha4 hb4)] at this
            exact ⟨_, this⟩
          · rcases matchMsPart_inv hmsp with rfl | ⟨x, y, z, rfl, hx, hy, hz⟩
            · have hmt : matchHourPart
                  ('T' :: (([a3, b3] : List Char) ++
                    ':' :: ([a4, b4] ++ ':' :: [a5, b5]))) = true := by
                rw [matchHourPart]
                simp only [decide_True, Bool.true_and]
                rw [matchTwoDigitsThen_chunk _ (by simp) (pair_digits ha3 hb3)]
                rw [matchMinPart]
                simp only [decide_True, Bool.true_and]
                rw [matchTwoDigitsThen_chunk _ (by simp) (pair_digits ha4 hb4)]
                rw [matchSecPart]
                simp only [decide_True, Bool.true_and]
                rw [matchTwoDigitsThen_pair ha5 hb5]
                rfl
              have httT : 'T' ∉ ([a3, b3] : List Char) ++
                  ':' :: ([a4, b4] ++ ':' :: [a5, b5]) := by
                refine no_t_mixed ?_
                intro c hc
                rcases List.mem_append.mp hc with h1 | h1
                · exact Or.inl (pair_digits ha3 hb3 c h1)
                · rcases List.mem_cons.mp h1 with rfl | h1
                  · exact Or.inr (Or.inl rfl)
                  · rcases List.mem_append.mp h1 with h2 | h2
                    · exact Or.inl (pair_digits ha4 hb4 c h2)
                    · rcases List.mem_cons.mp h2 with rfl | h2
                      · exact Or.inr (Or.inl rfl)
                      · exact Or.inl (pair_digits ha5 hb5 c h2)
              have := fromString_time sign [a, b] [a2, b2]
                ([a3, b3] ++ ':' :: ([a4, b4] ++ ':' :: [a5, b5])) hne hd rfl
                (pair_digits ha hb) rfl (pair_digits ha2 hb2) httT hmt
              rw [parseTimeBlock_second (by simp) (pair_digits ha3 hb3) (by simp)
                (pair_digits ha4 hb4) (by simp) (pair_digits ha5 hb5)] at this
              exact ⟨_, this⟩
            · have hmt : matchHourPart
                  ('T' :: (([a3, b3] : List Char) ++
                    ':' :: ([a4, b4] ++ ':' :: ([a5, b5] ++ '.' :: [x, y, z])))) =
                  true := by
                rw [matchHourPart]
                simp only [decide_True, Bool.true_and]
                rw [matchTwoDigitsThen_chunk _ (by simp) (pair_digits ha3 hb3)]
                rw [matchMinPart]
                simp only [decide_True, Bool.true_and]
                rw [matchTwoDigitsThen_chunk _ (by simp) (pair_digits ha4 hb4)]
                rw [matchSecPart]
                simp only [decide_True, Bool.true_and]
                rw [matchTwoDigitsThen_chunk _ (by simp) (pair_digits ha5 hb5)]
                rw [matchMsPart]
                simp only [decide_True, Bool.true_and]
                simp [matchThreeDigits, hx, hy, hz]
              have httT : 'T' ∉ ([a3, b3] : List Char) ++
                  ':' :: ([a4, b4] ++ ':' :: ([a5, b5] ++ '.' :: [x, y, z])) := by
                refine no_t_mixed ?_
                intro c hc
                rcases List.mem_append.mp hc with h1 | h1
                · exact Or.inl (pair_digits ha3 hb3 c h1)
                · rcases List.mem_cons.mp h1 with rfl | h1
                  · exact Or.inr (Or.inl rfl)
                  · rcases List.mem_append.mp h1 with h2 | h2
                    · exact Or.inl (pair_digits ha4 hb4 c h2)
                    · rcases List.mem_cons.mp h2 with rfl | h2
                      · exact Or.inr (Or.inl rfl)
                      · rcases List.mem_append.mp h2 with h3 | h3
                        · exact Or.inl (pair_digits ha5 hb5 c h3)
                        · rcases List.mem_cons.mp h3 with rfl | h3
                          · exact Or.inr (Or.inr rfl)
                          · exact Or.inl (triple_digits hx hy hz c h3)
              have := fromString_time sign [a, b] [a2, b2]
                ([a3, b3] ++ ':' :: ([a4, b4] ++ ':' :: ([a5, b5] ++
                  '.' :: [x, y, z]))) hne hd rfl
                (pair_digits ha hb) rfl (pair_digits ha2 hb2) httT hmt
              rw [parseTimeBlock_ms (by simp) (pair_digits ha3 hb3) (by simp)
                (pair_digits ha4 hb4) (by simp) (pair_digits ha5 hb5) (by simp)
                (triple_digits hx hy hz)] at this
              exact ⟨_, this⟩

/-- C6: fromString raises DeserializationError with message Invalid format
for every string the grammar's regular expression rejects — including plain
garbage, a malformed month part, and trailing garbage after a full valid
timestamp — and for every grammar-matching string it builds the options
record and delegates to the validating constructor, so the calendrically
impossible 2023-02-30 raises CalendarError, never DeserializationError. -/
theorem C6_fromString_errors :
    (∀ s : List Char, matchFDS s = false →
      FuzzyDate.fromString s = .error (.deserializationError "Invalid format")) ∧
    (∀ s : List Char, matchFDS s = true →
      ∃ o, FuzzyDate.fromString s = FuzzyDate.create o) ∧
    FuzzyDate.fromString "invalid".toList =
      .error (.deserializationError "Invalid format") ∧
    FuzzyDate.fromString "2023-invalid".toList =
      .error (.deserializationError "Invalid format") ∧
    FuzzyDate.fromString "2023-05-15T10:30:45.500x".toList =
      .error (.deserializationError "Invalid format") ∧
    FuzzyDate.fromString "2023-02-30".toList = .error .calendarError := by
  refine ⟨?_, fun s h => fromString_delegates h, by rfl, by rfl, by rfl, by rfl⟩
  intro s h
  rw [FuzzyDate.fromString, if_pos (by rw [h]; exact Bool.false_ne_true)]

/-- Witness for C6: a rejected input yields the format error, and the
grammar-matching 2023-02-30 goes through the constructor. -/
theorem C6_witness :
    (matchFDS "abc-".toList = false ∧
      FuzzyDate.fromString "abc-".toList =
        .error (.deserializationError "Invalid format")) ∧
    (matchFDS "2023-02-30".toList = true ∧
      ∃ o, FuzzyDate.fromString "2023-02-30".toList = FuzzyDate.create o) := by
  refine ⟨⟨by decide, ?_⟩, ⟨by decide, ?_⟩⟩
  · exact C6_fromString_errors.1 "abc-".toList (by decide)
  · exact C6_fromString_errors.2.1 "2023-02-30".toList (by decide)

theorem chunk2 {m : Int} (h0 : 0 ≤ m) (h99 : m < 100) :
    (padStart 2 '0' (jsNumChars (.int m))).length = 2 ∧
    (∀ c ∈ padStart 2 '0' (jsNumChars (.int m)), isDigitCh c = true) ∧
    (digitsVal (padStart 2 '0' (jsNumChars (.int m))) : Int) = m := by
  have hsz : jsNumChars (.int m) = natChars m.toNat := by
    rw [jsNumChars, jsIntChars, if_neg (by omega)]
  rw [hsz]
  refine ⟨?_, padStart_zero_all_digits (natChars_all_digits _), ?_⟩
  · rw [padStart_length]
    have hle : (natChars m.toNat).length ≤ 2 :=
      natChars_length_le (by norm_num) (by omega)
    omega
  · rw [digitsVal_padStart_zero, digitsVal_natChars]
    omega

theorem chunk3 {m : Int} (h0 : 0 ≤ m) (h999 : m < 1000) :
    (padStart 3 '0' (jsNumChars (.int m))).length = 3 ∧
    (∀ c ∈ padStart 3 '0' (jsNumChars (.int m)), isDigitCh c = true) ∧
    (digitsVal (padStart 3 '0' (jsNumChars (.int m))) : Int) = m := by
  have hsz : jsNumChars (.int m) = natChars m.toNat := by
    rw [jsNumChars, jsIntChars, if_neg (by omega)]
  rw [hsz]
  refine ⟨?_, padStart_zero_all_digits (natChars_all_digits _), ?_⟩
  · rw [padStart_length]
    have hle : (natChars m.toNat).length ≤ 3 :=
      natChars_length_le (by norm_num) (by omega)
    omega
  · rw [digitsVal_padStart_zero, digitsVal_natChars]
    omega

theorem yearStr_decomp {y : Int} (hdom : 0 ≤ y ∨ y ≤ -100) :
    ∃ (sign : Bool) (ds : List Char),
      padStart 4 '0' (jsNumChars (.int y)) = (if sign then ['-'] else []) ++ ds ∧
      ds ≠ [] ∧ (∀ c ∈ ds, isDigitCh c = true) ∧
      (if sign then .int (-(digitsVal ds : Int)) else .int (digitsVal ds)) =
        JNum.int y := by
  rcases hdom with hpos | hneg
  · refine ⟨false, padStart 4 '0' (natChars y.toNat), ?_, ?_,
      padStart_zero_all_digits (natChars_all_digits _), ?_⟩
    · rw [jsNumChars, jsIntChars, if_neg (by omega)]
      simp
    · intro hx
      have := congrArg List.length hx
      rw [padStart_length] at this
      simp at this
    · simp only [Bool.false_eq_true, if_false, JNum.int.injEq]
      rw [digitsVal_padStart_zero, digitsVal_natChars]
      omega
  · have hlt : y < 0 := by omega
    have hlen : 2 < (natChars y.natAbs).length :=
      natChars_length_ge (by simp only [pow_succ, pow_zero, one_mul]; omega)
    refine ⟨true, natChars y.natAbs, ?_, natChars_ne_nil _,
      natChars_all_digits _, ?_⟩
    · rw [jsNumChars, jsIntChars, if_pos hlt,
        padStart_eq_self (by simp only [List.length_cons]; omega)]
      rfl
    · simp only [if_true, JNum.int.injEq]
      rw [digitsVal_natChars]
      omega

theorem create_ok_opts {o : FuzzyDateOptions} {y : Int} {mo d h mi s ms : Option Int}
    (hok : FuzzyDate.create o = .ok (mkFuzzy y mo d h mi s ms)) :
    FuzzyDate.create (mkOptions y mo d h mi s ms) =
      .ok (mkFuzzy y mo d h mi s ms) := by
  obtain ⟨h1, h2, hfd⟩ := create_ok_inv hok
  have ho : o = mkOptions y mo d h mi s ms := by
    rcases o with ⟨oy, om, od, oh, omi, os, oms⟩
    simp only [mkFuzzy, FuzzyDate.mk.injEq] at hfd
    obtain ⟨e1, e2, e3, e4, e5, e6, e7⟩ := hfd
    simp only [mkOptions, FuzzyDateOptions.mk.injEq]
    exact ⟨e1.symm, e2.symm, e3.symm, e4.symm, e5.symm, e6.symm, e7.symm⟩
  rw [← ho]
  exact hok

theorem dim_le_31 (y m : Int) : daysInMonth y m ≤ 31 := by
  unfold daysInMonth
  split_ifs <;> norm_num

theorem roundtrip_univ :
    ∀ (o : FuzzyDateOptions) (fd : FuzzyDate) (y : Int),
      FuzzyDate.create o = .ok fd → fd.year = .int y → (0 ≤ y ∨ y ≤ -100) →
      FuzzyDate.fromString fd.toString = .ok fd := by
  intro o fd y hok hy hdom
  obtain ⟨y', hc⟩ := fd_cases hok
  obtain ⟨sign, ds, hY, hne, hd, hval⟩ := yearStr_decomp hdom
  rcases hc with h | ⟨m, hm, h⟩ | ⟨m, d, hm, hdb, h⟩ | ⟨m, d, hh, hm, hdb, hhb, h⟩ |
    ⟨m, d, hh, mi, hm, hdb, hhb, hmib, h⟩ |
    ⟨m, d, hh, mi, s, hm, hdb, hhb, hmib, hsb, h⟩ |
    ⟨m, d, hh, mi, s, ms, hm, hdb, hhb, hmib, hsb, hmsb, h⟩ <;> subst h <;>
    (simp only [mkFuzzy, JNum.int.injEq] at hy; subst y')
  · -- year only
    have hstr : FuzzyDate.toString (mkFuzzy y none none none none none none) =
        (if sign then ['-'] else []) ++ ds := by
      simp only [FuzzyDate.toString, mkFuzzy, Option.map_none', List.append_nil]
      rw [hY]
    rw [hstr, fromString_L1 sign hne hd]
    rw [show (if sign = true then JNum.int (-(digitsVal ds : Int))
        else JNum.int (digitsVal ds)) = JNum.int y from hval]
    exact create_ok_opts hok
  · -- year-month
    obtain ⟨hl2, hd2, hv2⟩ := chunk2 (by omega) (by omega : m < 100)
    have hstr : FuzzyDate.toString (mkFuzzy y (some m) none none none none none) =
        (if sign then ['-'] else []) ++
          (ds ++ '-' :: padStart 2 '0' (jsNumChars (.int m))) := by
      simp only [FuzzyDate.toString, mkFuzzy, Option.map_none', Option.map_some',
        List.append_nil]
      rw [hY]
      simp [List.append_assoc]
    rw [hstr]
    have hL := fromString_L2 sign _ hne hd hl2 hd2
    rw [List.append_assoc] at hL
    rw [hL]
    rw [show (if sign = true then JNum.int (-(digitsVal ds : Int))
        else JNum.int (digitsVal ds)) = JNum.int y from hval]
    rw [show JNum.int (digitsVal (padStart 2 '0' (jsNumChars (.int m))) : Int) =
        JNum.int m from by rw [hv2]]
    exact create_ok_opts hok
  · -- year-month-day
    obtain ⟨hl2, hd2, hv2⟩ := chunk2 (by omega) (by omega : m < 100)
    obtain ⟨hl2d, hd2d, hv2d⟩ := chunk2 (by omega) (by
      have := dim_le_31 y m
      omega : d < 100)
    have hstr : FuzzyDate.toString (mkFuzzy y (some m) (some d) none none none none) =
        (if sign then ['-'] else []) ++
          (ds ++ '-' :: (padStart 2 '0' (jsNumChars (.int m)) ++
            '-' :: padStart 2 '0' (jsNumChars (.int d)))) := by
      simp only [FuzzyDate.toString, mkFuzzy, Option.map_none', Option.map_some',
        List.append_nil]
      rw [hY]
      simp [List.append_assoc]
    rw [hstr]
    have hL := fromString_L3 sign _ _ hne hd hl2 hd2 hl2d hd2d
    rw [hL]
    rw [show (if sign = true then JNum.int (-(digitsVal ds : Int))
        else JNum.int (digitsVal ds)) = JNum.int y from hval]
    rw [show JNum.int (digitsVal (padStart 2 '0' (jsNumChars (.int m))) : Int) =
        JNum.int m from by rw [hv2]]
    rw [show JNum.int (digitsVal (padStart 2 '0' (jsNumChars (.int d))) : Int) =
        JNum.int d from by rw [hv2d]]
    exact create_ok_opts hok
  · -- hour precision
    obtain ⟨hl2, hd2, hv2⟩ := chunk2 (by omega) (by omega : m < 100)
    obtain ⟨hl2d, hd2d, hv2d⟩ := chunk2 (by omega) (by
      have := dim_le_31 y m
      omega : d < 100)
    obtain ⟨hl2h, hd2h, hv2h⟩ := chunk2 (by omega) (by omega : hh < 100)
    have hstr : FuzzyDate.toString
        (mkFuzzy y (some m) (some d) (some hh) none none none) =
        (if sign then ['-'] else []) ++
          (ds ++ '-' :: (padStart 2 '0' (jsNumChars (.int m)) ++
            '-' :: (padStart 2 '0' (jsNumChars (.int d)) ++
              'T' :: padStart 2 '0' (jsNumChars (.int hh))))) := by
      simp only [FuzzyDate.toString, mkFuzzy, Option.map_none', Option.map_some',
        List.append_nil]
      rw [hY]
      simp [List.append_assoc]
    rw [hstr]
    have hmt : matchHourPart ('T' :: padStart 2 '0' (jsNumChars (.int hh))) = true := by
      rw [matchHourPart]
      simp only [decide_True, Bool.true_and]
      have := matchTwoDigitsThen_chunk matchMinPart hl2h hd2h []
      rw [List.append_nil] at this
      rw [this]
      rfl
    have hL := fromString_time sign _ _ _ hne hd hl2 hd2 hl2d hd2d
      (digit_no_t hd2h) hmt
    rw [parseTimeBlock_hour hl2h hd2h] at hL
    rw [hL]
    rw [show JNum.int (if sign = true then -(digitsVal ds : Int)
        else (digitsVal ds : Int)) = JNum.int y from by
      rw [apply_ite JNum.int]; exact hval]
    rw [show JNum.int (digitsVal (padStart 2 '0' (jsNumChars (.int m))) : Int) =
        JNum.int m from by rw [hv2]]
    rw [show JNum.int (digitsVal (padStart 2 '0' (jsNumChars (.int d))) : Int) =
        JNum.int d from by rw [hv2d]]
    rw [show JNum.int (digitsVal (padStart 2 '0' (jsNumChars (.int hh))) : Int) =
        JNum.int hh from by rw [hv2h]]
    exact create_ok_opts hok
  · -- minute precision
    obtain ⟨hl2, hd2, hv2⟩ := chunk2 (by omega) (by omega : m < 100)
    obtain ⟨hl2d, hd2d, hv2d⟩ := chunk2 (by omega) (by
      have := dim_le_31 y m
      omega : d < 100)
    obtain ⟨hl2h, hd2h, hv2h⟩ := chunk2 (by omega) (by omega : hh < 100)
    obtain ⟨hl2mi, hd2mi, hv2mi⟩ := chunk2 (by omega) (by omega : mi < 100)
    have hstr : FuzzyDate.toString
        (mkFuzzy y (some m) (some d) (some hh) (some mi) none none) =
        (if sign then ['-'] else []) ++
          (ds ++ '-' :: (padStart 2 '0' (jsNumChars (.int m)) ++
            '-' :: (padStart 2 '0' (jsNumChars (.int d)) ++
              'T' :: (padStart 2 '0' (jsNumChars (.int hh)) ++
                ':' :: padStart 2 '0' (jsNumChars (.int mi)))))) := by
      simp only [FuzzyDate.toString, mkFuzzy, Option.map_none', Option.map_some',
        List.append_nil]
      rw [hY]
      simp [List.append_assoc]
    rw [hstr]
    have hmt : matchHourPart ('T' :: (padStart 2 '0' (jsNumChars (.int hh)) ++
        ':' :: padStart 2 '0' (jsNumChars (.int mi)))) = true := by
      rw [matchHourPart]
      simp only [decide_True, Bool.true_and]
      rw [matchTwoDigitsThen_chunk _ hl2h hd2h, matchMinPart]
      simp only [decide_True, Bool.true_and]
      have := matchTwoDigitsThen_chunk matchSecPart hl2mi hd2mi []
      rw [List.append_nil] at this
      rw [this]
      rfl
    have httT : 'T' ∉ padStart 2 '0' (jsNumChars (.int hh)) ++
        ':' :: padStart 2 '0' (jsNumChars (.int mi)) := by
      refine no_t_mixed ?_
      intro c hc
      rcases List.mem_append.mp hc with h1 | h1
      · exact Or.inl (hd2h c h1)
      · rcases List.mem_cons.mp h1 with rfl | h1
        · exact Or.inr (Or.inl rfl)
        · exact Or.inl (hd2mi c h1)
    have hL := fromString_time sign _ _ _ hne hd hl2 hd2 hl2d hd2d httT hmt
    rw [parseTimeBlock_minute hl2h hd2h hl2mi hd2mi] at hL
    rw [hL]
    rw [show JNum.int (if sign = true then -(digitsVal ds : Int)
        else (digitsVal ds : Int)) = JNum.int y from by
      rw [apply_ite JNum.int]; exact hval]
    rw [show JNum.int (digitsVal (padStart 2 '0' (jsNumChars (.int m))) : Int) =
        JNum.int m from by rw [hv2]]
    rw [show JNum.int (digitsVal (padStart 2 '0' (jsNumChars (.int d))) : Int) =
        JNum.int d from by rw [hv2d]]
    rw [show JNum.int (digitsVal (padStart 2 '0' (jsNumChars (.int hh))) : Int) =
        JNum.int hh from by rw [hv2h]]
    rw [show JNum.int (digitsVal (padStart 2 '0' (jsNumChars (.int mi))) : Int) =
        JNum.int mi from by rw [hv2mi]]
    exact create_ok_opts hok
  · -- second precision
    obtain ⟨hl2, hd2, hv2⟩ := chunk2 (by omega) (by omega : m < 100)
    obtain ⟨hl2d, hd2d, hv2d⟩ := chunk2 (by omega) (by
      have := dim_le_31 y m
      omega : d < 100)
    obtain ⟨hl2h, hd2h, hv2h⟩ := chunk2 (by omega) (by omega : hh < 100)
    obtain ⟨hl2mi, hd2mi, hv2mi⟩ := chunk2 (by omega) (by omega : mi < 100)
    obtain ⟨hl2s, hd2s, hv2s⟩ := chunk2 (by omega) (by omega : s < 100)
    have hstr : FuzzyDate.toString
        (mkFuzzy y (some m) (some d) (some hh) (some mi) (some s) none) =
        (if sign then ['-'] else []) ++
          (ds ++ '-' :: (padStart 2 '0' (jsNumChars (.int m)) ++
            '-' :: (padStart 2 '0' (jsNumChars (.int d)) ++
              'T' :: (padStart 2 '0' (jsNumChars (.int hh)) ++
                ':' :: (padStart 2 '0' (jsNumChars (.int mi)) ++
                  ':' :: padStart 2 '0' (jsNumChars (.int s))))))) := by
      simp only [FuzzyDate.toString, mkFuzzy, Option.map_none', Option.map_some',
        List.append_nil]
      rw [hY]
      simp [List.append_assoc]
    rw [hstr]
    have hmt : matchHourPart ('T' :: (padStart 2 '0' (jsNumChars (.int hh)) ++
        ':' :: (padStart 2 '0' (jsNumChars (.int mi)) ++
          ':' :: padStart 2 '0' (jsNumChars (.int s))))) = true := by
      rw [matchHourPart]
      simp only [decide_True, Bool.true_and]
      rw [matchTwoDigitsThen_chunk _ hl2h hd2h, matchMinPart]
      simp only [decide_True, Bool.true_and]
      rw [matchTwoDigitsThen_chunk _ hl2mi hd2mi, matchSecPart]
      simp only [decide_True, Bool.true_and]
      have := matchTwoDigitsThen_chunk matchMsPart hl2s hd2s []
      rw [List.append_nil] at this
      rw [this]
      rfl
    have httT : 'T' ∉ padStart 2 '0' (jsNumChars (.int hh)) ++
        ':' :: (padStart 2 '0' (jsNumChars (.int mi)) ++
          ':' :: padStart 2 '0' (jsNumChars (.int s))) := by
      refine no_t_mixed ?_
      intro c hc
      rcases List.mem_append.mp hc with h1 | h1
      · exact Or.inl (hd2h c h1)
      · rcases List.mem_cons.mp h1 with rfl | h1
        · exact Or.inr (Or.inl rfl)
        · rcases List.mem_append.mp h1 with h2 | h2
          · exact Or.inl (hd2mi c h2)
          · rcases List.mem_cons.mp h2 with rfl | h2
            · exact Or.inr (Or.inl rfl)
            · exact Or.inl (hd2s c h2)
    have hL := fromString_time sign _ _ _ hne hd hl2 hd2 hl2d hd2d httT hmt
    rw [parseTimeBlock_second hl2h hd2h hl2mi hd2mi hl2s hd2s] at hL
    rw [hL]
    rw [show JNum.int (if sign = true then -(digitsVal ds : Int)
        else (digitsVal ds : Int)) = JNum.int y from by
      rw [apply_ite JNum.int]; exact hval]
    rw [show JNum.int (digitsVal (padStart 2 '0' (jsNumChars (.int m))) : Int) =
        JNum.int m from by rw [hv2]]
    rw [show JNum.int (digitsVal (padStart 2 '0' (jsNumChars (.int d))) : Int) =
        JNum.int d from by rw [hv2d]]
    rw [show JNum.int (digitsVal (padStart 2 '0' (jsNumChars (.int hh))) : Int) =
        JNum.int hh from by rw [hv2h]]
    rw [show JNum.int (digitsVal (padStart 2 '0' (jsNumChars (.int mi))) : Int) =
        JNum.int mi from by rw [hv2mi]]
    rw [show JNum.int (digitsVal (padStart 2 '0' (jsNumChars (.int s))) : Int) =
        JNum.int s from by rw [hv2s]]
    exact create_ok_opts hok
  · -- millisecond precision
    obtain ⟨hl2, hd2, hv2⟩ := chunk2 (by omega) (by omega : m < 100)
    obtain ⟨hl2d, hd2d, hv2d⟩ := chunk2 (by omega) (by
      have := dim_le_31 y m
      omega : d < 100)
    obtain ⟨hl2h, hd2h, hv2h⟩ := chunk2 (by omega) (by omega : hh < 100)
    obtain ⟨hl2mi, hd2mi, hv2mi⟩ := chunk2 (by omega) (by omega : mi < 100)
    obtain ⟨hl2s, hd2s, hv2s⟩ := chunk2 (by omega) (by omega : s < 100)
    obtain ⟨hl3ms, hd3ms, hv3ms⟩ := chunk3 (by omega) (by omega : ms < 1000)
    have hstr : FuzzyDate.toString
        (mkFuzzy y (some m) (some d) (some hh) (some mi) (some s) (some ms)) =
        (if sign then ['-'] else []) ++
          (ds ++ '-' :: (padStart 2 '0' (jsNumChars (.int m)) ++
            '-' :: (padStart 2 '0' (jsNumChars (.int d)) ++
              'T' :: (padStart 2 '0' (jsNumChars (.int hh)) ++
                ':' :: (padStart 2 '0' (jsNumChars (.int mi)) ++
                  ':' :: (padStart 2 '0' (jsNumChars (.int s)) ++
                    '.' :: padStart 3 '0' (jsNumChars (.int ms)))))))) := by
      simp only [FuzzyDate.toString, mkFuzzy, Option.map_none', Option.map_some',
        List.append_nil]
      rw [hY]
      simp [List.append_assoc]
    rw [hstr]
    have hmt : matchHourPart ('T' :: (padStart 2 '0' (jsNumChars (.int hh)) ++
        ':' :: (padStart 2 '0' (jsNumChars (.int mi)) ++
          ':' :: (padStart 2 '0' (jsNumChars (.int s)) ++
            '.' :: padStart 3 '0' (jsNumChars (.int ms)))))) = true := by
      rw [matchHourPart]
      simp only [decide_True, Bool.true_and]
      rw [matchTwoDigitsThen_chunk _ hl2h hd2h, matchMinPart]
      simp only [decide_True, Bool.true_and]
      rw [matchTwoDigitsThen_chunk _ hl2mi hd2mi, matchSecPart]
      simp only [decide_True, Bool.true_and]
      rw [matchTwoDigitsThen_chunk _ hl2s hd2s, matchMsPart]
      simp only [decide_True, Bool.true_and]
      obtain ⟨x1, x2, x3, hxe⟩ := List.length_eq_three.mp hl3ms
      rw [hxe]
      have hx1 := hd3ms x1 (by rw [hxe]; simp)
      have hx2 := hd3ms x2 (by rw [hxe]; simp)
      have hx3 := hd3ms x3 (by rw [hxe]; simp)
      simp [matchThreeDigits, hx1, hx2, hx3]
    have httT : 'T' ∉ padStart 2 '0' (jsNumChars (.int hh)) ++
        ':' :: (padStart 2 '0' (jsNumChars (.int mi)) ++
          ':' :: (padStart 2 '0' (jsNumChars (.int s)) ++
            '.' :: padStart 3 '0' (jsNumChars (.int ms)))) := by
      refine no_t_mixed ?_
      intro c hc
      rcases List.mem_append.mp hc with h1 | h1
      · exact Or.inl (hd2h c h1)
      · rcases List.mem_cons.mp h1 with rfl | h1
        · exact Or.inr (Or.inl rfl)
        · rcases List.mem_append.mp h1 with h2 | h2
          · exact Or.inl (hd2mi c h2)
          · rcases List.mem_cons.mp h2 with rfl | h2
            · exact Or.inr (Or.inl rfl)
            · rcases List.mem_append.mp h2 with h3 | h3
              · exact Or.inl (hd2s c h3)
              · rcases List.mem_cons.mp h3 with rfl | h3
                · exact Or.inr (Or.inr rfl)
                · exact Or.inl (hd3ms c h3)
    have hL := fromString_time sign _ _ _ hne hd hl2 hd2 hl2d hd2d httT hmt
    rw [parseTimeBlock_ms hl2h hd2h hl2mi hd2mi hl2s hd2s hl3ms hd3ms] at hL
    rw [hL]
    rw [show JNum.int (if sign = true then -(digitsVal ds : Int)
        else (digitsVal ds : Int)) = JNum.int y from by
      rw [apply_ite JNum.int]; exact hval]
    rw [show JNum.int (digitsVal (padStart 2 '0' (jsNumChars (.int m))) : Int) =
        JNum.int m from by rw [hv2]]
    rw [show JNum.int (digitsVal (padStart 2 '0' (jsNumChars (.int d))) : Int) =
        JNum.int d from by rw [hv2d]]
    rw [show JNum.int (digitsVal (padStart 2 '0' (jsNumChars (.int hh))) : Int) =
        JNum.int hh from by rw [hv2h]]
    rw [show JNum.int (digitsVal (padStart 2 '0' (jsNumChars (.int mi))) : Int) =
        JNum.int mi from by rw [hv2mi]]
    rw [show JNum.int (digitsVal (padStart 2 '0' (jsNumChars (.int s))) : Int) =
        JNum.int s from by rw [hv2s]]
    rw [show JNum.int (digitsVal (padStart 3 '0' (jsNumChars (.int ms))) : Int) =
        JNum.int ms from by rw [hv3ms]]
    exact create_ok_opts hok

/-- C1 (amended): for every validly constructed FuzzyDate whose year is
nonnegative or of magnitude at least 100, fromString of toString succeeds
and returns a FuzzyDate with exactly the same defined fields and values,
every field after the defined prefix remaining undefined; negative years of
magnitude below 100 are excluded, since the zero padding there is applied in
front of the sign and the round trip fails. -/
theorem C1_roundtrip :
    ∀ (o : FuzzyDateOptions) (fd : FuzzyDate) (y : Int),
      FuzzyDate.create o = .ok fd → fd.year = .int y → (0 ≤ y ∨ y ≤ -100) →
      FuzzyDate.fromString fd.toString = .ok fd :=
  roundtrip_univ

/-- Witness for C1: the round trip through the string form at year -500
month 3, and at the fully defined timestamp of the README example. -/
theorem C1_witness :
    (FuzzyDate.create (mkOptions (-500) (some 3) none none none none none) =
      .ok (mkFuzzy (-500) (some 3) none none none none none) ∧
    FuzzyDate.fromString
        (mkFuzzy (-500) (some 3) none none none none none).toString =
      .ok (mkFuzzy (-500) (some 3) none none none none none)) ∧
    FuzzyDate.fromString
        (mkFuzzy 2023 (some 5) (some 15) (some 10) (some 30) (some 45)
          (some 500)).toString =
      .ok (mkFuzzy 2023 (some 5) (some 15) (some 10) (some 30) (some 45)
        (some 500)) := by
  refine ⟨⟨by rfl, ?_⟩, ?_⟩
  · exact C1_roundtrip (mkOptions (-500) (some 3) none none none none none)
      (mkFuzzy (-500) (some 3) none none none none none) (-500) (by rfl) rfl
      (by norm_num)
  · exact C1_roundtrip
      (mkOptions 2023 (some 5) (some 15) (some 10) (some 30) (some 45) (some 500))
      (mkFuzzy 2023 (some 5) (some 15) (some 10) (some 30) (some 45) (some 500))
      2023 (by rfl) rfl (by norm_num)

/-- C1 counterexample: year -50 constructs a valid FuzzyDate, its string
form is "0-50", and parsing that back fails with CalendarError (the string
reads as year 0 month 50), so the round trip of the claim does not hold for
every validly constructed FuzzyDate with a negative year. -/
theorem C1_counterexample :
    FuzzyDate.create (mkOptions (-50) none none none none none none) =
      .ok (mkFuzzy (-50) none none none none none none) ∧
    FuzzyDate.fromString (mkFuzzy (-50) none none none none none none).toString =
      .error .calendarError := by
  exact ⟨rfl, rfl⟩
